import Mathlib

/-!
# IBM Wheelwriter Teletype: a shallow embedding of `main.c`

The firmware keeps its state in global variables and one function-local
static (`escape`).  The embedding passes that state explicitly and records
every call to an external routine (the `ww_*` actuation primitives and the
UART writers) as an `Event`, in call order.

Machine integers are natural numbers; `unsigned char` arithmetic is reduced
modulo 256 where the source can overflow, and the plain `char` local `t` of
the HT branch is read as a signed 8-bit value (the Keil C51 default).
-/

namespace Wheelwriter

/-! ## Constants -/

/-- Micro spaces per character on the 15P printwheel (`#define FIFTEENCPI 8`). -/
def FIFTEENCPI : Nat := 8
/-- Micro spaces per character on the 12P printwheel (`#define TWELVECPI 10`). -/
def TWELVECPI : Nat := 10
/-- Micro spaces per character on the 10P printwheel (`#define TENCPI 12`). -/
def TENCPI : Nat := 12

/-- The value of `#define ON 0` as a `bit`. -/
def ON : Bool := false
/-- The value of `#define OFF 1` as a `bit`. -/
def OFF : Bool := true

/-- Modelled from the spec: `control.h` is not among the sources; the control
codes carry the ASCII values listed in the header comment of
`print_character` and in the spec (NUL and SP are the ASCII null and space). -/
def NUL : Nat := 0x00
/-- Modelled from the spec: `control.h` is missing; BEL is 0x07. -/
def BEL : Nat := 0x07
/-- Modelled from the spec: `control.h` is missing; BS is 0x08. -/
def BS : Nat := 0x08
/-- Modelled from the spec: `control.h` is missing; HT is 0x09. -/
def HT : Nat := 0x09
/-- Modelled from the spec: `control.h` is missing; LF is 0x0A. -/
def LF : Nat := 0x0A
/-- Modelled from the spec: `control.h` is missing; VT is 0x0B. -/
def VT : Nat := 0x0B
/-- Modelled from the spec: `control.h` is missing; CR is 0x0D. -/
def CR : Nat := 0x0D
/-- Modelled from the spec: `control.h` is missing; ESC is 0x1B. -/
def ESC : Nat := 0x1B
/-- Modelled from the spec: `control.h` is missing; SP is the ASCII space. -/
def SP : Nat := 0x20

/-! ## Observable events -/

/-- One call to an external routine, with its arguments. -/
inductive Event where
  | ww_spin
  | ww_backspace
  | ww_horizontal_tab (t : Int)
  | ww_linefeed
  | ww_carriage_return
  | ww_print_letter (c attr : Nat)
  | ww_paper_up
  | ww_paper_down
  | ww_reverse_linefeed
  | ww_micro_backspace
  | ww_set_printwheel (n : Nat)
  | ww_micro_up
  | ww_micro_down
  | putchar2 (c : Nat)
  | uart3_send (w : Nat)
  | uart3_send_ACK
  | uart4_send (w : Nat)
  deriving DecidableEq, Repr

/-! ## Program state -/

/-- The global variables of `main.c`, the static `escape` of
`print_character`, the static `ticks` of `timer0_isr` and the four port
registers.  A `bit` is a `Bool` (`true` is 1); the global `attribute` is the
field `attrib`, its own name being reserved in Lean. -/
structure State where
  switch1 : Bool
  passThrough : Bool
  errorLED : Bool
  attrib : Nat
  column : Nat
  tabStop : Nat
  timeout : Nat
  hours : Nat
  minutes : Nat
  seconds : Nat
  escape : Nat
  ticks : Nat
  P0 : Nat
  P1 : Nat
  P2 : Nat
  P3 : Nat
  deriving DecidableEq, Repr

/-- The initialisers of the globals and statics; the port registers read as
`p0`..`p3`. -/
def powerOn (p0 p1 p2 p3 : Nat) : State :=
  { switch1 := OFF, passThrough := true, errorLED := false,
    attrib := 0, column := 1, tabStop := 5, timeout := 0,
    hours := 0, minutes := 0, seconds := 0, escape := 0, ticks := 0,
    P0 := p0, P1 := p1, P2 := p2, P3 := p3 }

/-- The `sbit redLED = P0^5` read as a bit. -/
def redLED (s : State) : Bool := s.P0.testBit 5

/-- The assignment `redLED = b` on bit 5 of port 0. -/
def setRedLED (s : State) (b : Bool) : State :=
  { s with P0 := if b then s.P0 ||| 0x20 else s.P0 &&& 0xDF }

/-! ## Console output -/

/-- The replacement `putchar` of `main.c`: it hands the byte to `putchar2`. -/
def putchar (c : Nat) : List Event := [Event.putchar2 c]

/-- Writing a string through `putchar`, one byte per character. -/
def putstr (cs : List Char) : List Event :=
  cs.map (fun ch => Event.putchar2 ch.toNat)

/-- The conversion `%u` of `printf` applied to a non-negative `int`. -/
def fmt_u (n : Nat) : List Char := Nat.toDigits 10 n

/-- The conversion `%02u`: decimal, padded with zeros to at least two
characters. -/
def fmt_02u (n : Nat) : List Char :=
  let d := Nat.toDigits 10 n
  List.replicate (2 - d.length) '0' ++ d

/-- The conversion `%02X`: upper-case hexadecimal, padded with zeros to at
least two characters. -/
def fmt_02X (n : Nat) : List Char :=
  let d := (Nat.toDigits 16 n).map Char.toUpper
  List.replicate (2 - d.length) '0' ++ d

/-! ## Signed characters -/

/-- The value of an integer result stored into a plain (signed 8-bit)
`char`. -/
def toSChar (n : Nat) : Int :=
  if n % 256 < 128 then ((n % 256 : Nat) : Int) else ((n % 256 : Nat) : Int) - 256

/-! ## `print_character` -/

/-- The loop `for(i=0; i<t; i++){ ++column; putchar(SP); }` with `n`
iterations left, started at column `col`. -/
def tabLoop : Nat → Nat → Nat × List Event
  | 0, col => (col, [])
  | n + 1, col =>
    let r := tabLoop n ((col + 1) % 256)
    (r.1, putchar SP ++ r.2)

/-- The body of `case 0:` of `switch (escape)`. -/
def escape0 (s : State) (charToPrint : Nat) : State × List Event :=
  if charToPrint = NUL then (s, [])
  else if charToPrint = BEL then (s, [Event.ww_spin] ++ putchar BEL)
  else if charToPrint = BS then
    if s.column > 1 then
      ({ s with column := s.column - 1 }, [Event.ww_backspace] ++ putchar BS)
    else (s, [])
  else if charToPrint = HT then
    let t : Int := toSChar (s.tabStop - (s.column % s.tabStop))
    let r := tabLoop t.toNat s.column
    ({ s with column := r.1 }, [Event.ww_horizontal_tab t] ++ r.2)
  else if charToPrint = LF then (s, [Event.ww_linefeed] ++ putchar LF)
  else if charToPrint = VT then (s, [Event.ww_linefeed])
  else if charToPrint = CR then
    ({ s with column := 1, attrib := 0 },
      [Event.ww_carriage_return]
        ++ (if !s.switch1 then [Event.ww_linefeed] else [])
        ++ putchar CR)
  else if charToPrint = ESC then ({ s with escape := 1 }, [])
  else
    ({ s with column := (s.column + 1) % 256 },
      [Event.ww_print_letter charToPrint s.attrib] ++ putchar charToPrint)

/-- The body of `case 1:`, the second character of an escape sequence. -/
def escape1 (s : State) (charToPrint : Nat) : State × List Event :=
  if charToPrint = 'O'.toNat then
    ({ s with attrib := s.attrib ||| 0x01, escape := 0 }, [])
  else if charToPrint = '&'.toNat then
    ({ s with attrib := s.attrib &&& 0x06, escape := 0 }, [])
  else if charToPrint = 'E'.toNat then
    ({ s with attrib := s.attrib ||| 0x02, escape := 0 }, [])
  else if charToPrint = 'R'.toNat then
    ({ s with attrib := s.attrib &&& 0x01, escape := 0 }, [])
  else if charToPrint = 'X'.toNat then
    ({ s with attrib := 0, escape := 0 }, [])
  else if charToPrint = 'U'.toNat then
    ({ s with escape := 0 }, [Event.ww_paper_up])
  else if charToPrint = 'D'.toNat then
    ({ s with escape := 0 }, [Event.ww_paper_down])
  else if charToPrint = LF then
    ({ s with escape := 0 }, [Event.ww_reverse_linefeed])
  else if charToPrint = BS then
    ({ s with escape := 0 }, [Event.ww_micro_backspace])
  else if charToPrint = 'b'.toNat then
    ({ s with attrib := s.attrib ||| 0x04, escape := 0 }, [])
  else if charToPrint = 'e'.toNat then
    ({ s with tabStop := 6, escape := 0 }, [Event.ww_set_printwheel TWELVECPI])
  else if charToPrint = 'p'.toNat then
    ({ s with tabStop := 5, escape := 0 }, [Event.ww_set_printwheel TENCPI])
  else if charToPrint = 'm'.toNat then
    ({ s with tabStop := 7, escape := 0 }, [Event.ww_set_printwheel FIFTEENCPI])
  else if charToPrint = 'u'.toNat then
    ({ s with escape := 0 }, [Event.ww_micro_up])
  else if charToPrint = 'd'.toNat then
    ({ s with escape := 0 }, [Event.ww_micro_down])
  else if charToPrint = 0x1A then ({ s with escape := 2 }, [])
  else (s, [])

/-- The body of `case 2:`, the diagnostic selector. -/
def escape2 (s : State) (charToPrint : Nat) : State × List Event :=
  if charToPrint = 'c'.toNat then
    ({ s with escape := 0 },
      putstr ("Column:".toList ++ [' '] ++ fmt_u s.column ++ ['\n']))
  else if charToPrint = 'k'.toNat then
    ({ s with escape := 0 },
      if s.passThrough then
        putstr "Wheelwriter key strokes go to Wheelwriter.\n".toList
      else
        putstr "Wheelwriter key strokes go to serial console.\n".toList)
  else if charToPrint = 'e'.toNat then ({ s with escape := 4 }, [])
  else if charToPrint = 'p'.toNat then ({ s with escape := 3 }, [])
  else if charToPrint = 'r'.toNat then ({ s with escape := 0 }, [])
  else if charToPrint = 'u'.toNat then
    ({ s with escape := 0 },
      putstr ("Uptime:".toList ++ [' '] ++ fmt_02u s.hours ++ [':']
        ++ fmt_02u s.minutes ++ [':'] ++ fmt_02u s.seconds ++ ['\n']))
  else if charToPrint = 'w'.toNat then ({ s with escape := 0 }, [])
  else (s, [])

/-- The body of `case 3:`, the port selector. -/
def escape3 (s : State) (charToPrint : Nat) : State × List Event :=
  if charToPrint = '0'.toNat then
    ({ s with escape := 0 },
      putstr ("P0:".toList ++ " 0x".toList ++ fmt_02X s.P0 ++ ['\n']))
  else if charToPrint = '1'.toNat then
    ({ s with escape := 0 },
      putstr ("P1:".toList ++ " 0x".toList ++ fmt_02X s.P1 ++ ['\n']))
  else if charToPrint = '2'.toNat then
    ({ s with escape := 0 },
      putstr ("P2:".toList ++ " 0x".toList ++ fmt_02X s.P2 ++ ['\n']))
  else if charToPrint = '3'.toNat then
    ({ s with escape := 0 },
      putstr ("P3:".toList ++ " 0x".toList ++ fmt_02X s.P3 ++ ['\n']))
  else (s, [])

/-- The body of `case 4:`, the error LED selector. -/
def escape4 (s : State) (charToPrint : Nat) : State × List Event :=
  if charToPrint &&& 0x01 ≠ 0 then
    ({ s with errorLED := true, escape := 0 }, [])
  else
    ({ setRedLED { s with errorLED := false } OFF with escape := 0 }, [])

/-- The function `print_character`: one step of the control-code
interpreter on the byte `charToPrint`. -/
def print_character (s : State) (charToPrint : Nat) : State × List Event :=
  if s.escape = 0 then escape0 s charToPrint
  else if s.escape = 1 then escape1 s charToPrint
  else if s.escape = 2 then escape2 s charToPrint
  else if s.escape = 3 then escape3 s charToPrint
  else if s.escape = 4 then escape4 s charToPrint
  else (s, [])

/-- Consuming a list of bytes in arrival order, collecting the events. -/
def consume : State → List Nat → State × List Event
  | s, [] => (s, [])
  | s, c :: cs =>
    let r := print_character s c
    let r2 := consume r.1 cs
    (r2.1, r.2 ++ r2.2)

/-- The console bytes among a list of events. -/
def consoleOf : List Event → List Nat
  | [] => []
  | Event.putchar2 c :: es => c :: consoleOf es
  | _ :: es => consoleOf es

/-- The events of a list that are not console writes. -/
def actionsOf : List Event → List Event
  | [] => []
  | Event.putchar2 _ :: es => actionsOf es
  | e :: es => e :: actionsOf es

/-! ## The steady-state router of `main` -/

/-- The loop `while (uart3_avail()) { ... }` of the steady-state router, run
on the words `ws` that `uart3_get_data` returns, oldest first.  The external
`ww_decode_keys` may keep state of its own between calls: it is a step
function on a decoder state `k`. -/
def drainFunctionBoard {κ : Type} (ww_decode_keys : κ → Nat → κ × Nat)
    (s : State) : κ → List Nat → κ × List Event
  | k, [] => (k, [])
  | k, wwData3 :: ws =>
    if s.passThrough then
      let r := drainFunctionBoard ww_decode_keys s k ws
      (r.1, [Event.uart4_send wwData3] ++ r.2)
    else
      let d := ww_decode_keys k wwData3
      let r := drainFunctionBoard ww_decode_keys s d.1 ws
      (r.1, [Event.uart3_send_ACK, Event.putchar2 d.2] ++ r.2)

/-- The characters `ww_decode_keys` returns on the words `ws`, in order. -/
def decodeAll {κ : Type} (ww_decode_keys : κ → Nat → κ × Nat) :
    κ → List Nat → List Nat
  | _, [] => []
  | k, w :: ws =>
    (ww_decode_keys k w).2 :: decodeAll ww_decode_keys (ww_decode_keys k w).1 ws

/-- The loop `while (uart4_avail()) { ... }` of the steady-state router on
the words `ws` that `uart4_get_data` returns. -/
def drainPrinterBoard : List Nat → List Event
  | [] => []
  | wwData4 :: ws => Event.uart3_send wwData4 :: drainPrinterBoard ws

/-- The words written to the Printer Board among a list of events. -/
def printerBoardOf : List Event → List Nat
  | [] => []
  | Event.uart4_send w :: es => w :: printerBoardOf es
  | _ :: es => printerBoardOf es

/-- The number of acknowledgments sent to the Function Board. -/
def ackCount : List Event → Nat
  | [] => 0
  | Event.uart3_send_ACK :: es => ackCount es + 1
  | _ :: es => ackCount es

/-- The words relayed to the Function Board by `uart3_send`. -/
def functionBoardOf : List Event → List Nat
  | [] => []
  | Event.uart3_send w :: es => w :: functionBoardOf es
  | _ :: es => functionBoardOf es

/-- The events of an intercepting drain that decodes to the characters
`cs`: an acknowledgment, then the character on the console, per word. -/
def interceptEvents : List Nat → List Event
  | [] => []
  | c :: cs => Event.uart3_send_ACK :: Event.putchar2 c :: interceptEvents cs

/-! ## The timer interrupt -/

/-- The number of 50 ms intervals in a second (`#define ONESEC 20`). -/
def ONESEC : Nat := 20

/-- The handler `timer0_isr`, run once per 50 ms interval.  The reload of the
timer registers TL0 and TH0 is outside the state; every counter is eight bits
wide. -/
def timer0_isr (s : State) : State :=
  let s1 : State := if s.timeout ≠ 0 then { s with timeout := s.timeout - 1 } else s
  let ticks := (s1.ticks + 1) % 256
  if ticks = 20 then
    let s2 : State := { s1 with ticks := 0 }
    let s3 : State := if s2.errorLED then setRedLED s2 (!redLED s2) else s2
    let seconds := (s3.seconds + 1) % 256
    if seconds = 60 then
      let minutes := (s3.minutes + 1) % 256
      if minutes = 60 then
        { s3 with seconds := 0, minutes := 0, hours := (s3.hours + 1) % 256 }
      else
        { s3 with seconds := 0, minutes := minutes }
    else
      { s3 with seconds := seconds }
  else
    { s1 with ticks := ticks }

/-- The state after `n` timer interrupts in a row. -/
def ticksElapse : Nat → State → State
  | 0, s => s
  | n + 1, s => ticksElapse n (timer0_isr s)

/-! ## The startup handshake of `main` -/

/-- The state seen by the startup wait: the globals and the locals `pitch`
and `state` of `main`. -/
structure Startup where
  s : State
  pitch : Nat
  state : Nat
  deriving DecidableEq, Repr

/-- The `switch (state)` of the startup wait on one Function Board word. -/
def matchPreamble (state wwData3 : Nat) : Nat :=
  if state = 0 then
    if wwData3 = 0x121 then 1 else 0
  else if state = 1 then
    if wwData3 = 0x001 then 2 else 0
  else state

/-- The loop `while (uart3_avail()) { ... }` of the startup wait.  Each word
comes with the number of timer interrupts that fire before it is handled. -/
def startupFB : Startup → List (Nat × Nat) → Startup × List Event
  | h, [] => (h, [])
  | h, (n, wwData3) :: ws =>
    let r := startupFB
      { h with s := ticksElapse n h.s, state := matchPreamble h.state wwData3 } ws
    (r.1, Event.uart4_send wwData3 :: r.2)

/-- The loop `while (uart4_avail()) { ... }` of the startup wait.  Each word
comes with the number of timer interrupts that fire before it is handled; the
assignment `pitch = wwData4` keeps the low eight bits. -/
def startupPB : Startup → List (Nat × Nat) → Startup × List Event
  | h, [] => (h, [])
  | h, (n, wwData4) :: ws =>
    let s1 := ticksElapse n h.s
    let h1 : Startup :=
      if h.state = 2 then
        { s := { s1 with timeout := 1 }, pitch := wwData4 % 256, state := 3 }
      else { h with s := s1 }
    let r := startupPB h1 ws
    (r.1, Event.uart3_send wwData4 :: r.2)

/-- One pass through the body of `while(timeout)`: the words the two inner
loops read and the timer interrupts that fire after the last word, before
`timeout` is tested again. -/
structure Pass where
  fb : List (Nat × Nat)
  pb : List (Nat × Nat)
  idle : Nat
  deriving DecidableEq, Repr

/-- The body of `while(timeout)` on one pass. -/
def startupPass (h : Startup) (q : Pass) : Startup × List Event :=
  let a := startupFB h q.fb
  let b := startupPB a.1 q.pb
  ({ b.1 with s := ticksElapse q.idle b.1.s }, a.2 ++ b.2)

/-- The loop `while(timeout) { ... }` on the passes that are on offer.  The
result is `none` when the passes run out while `timeout` is still non-zero,
that is while the loop is still running. -/
def startupWait : Startup → List Pass → Option (Startup × List Event)
  | h, [] => if h.s.timeout = 0 then some (h, []) else none
  | h, q :: qs =>
    if h.s.timeout = 0 then some (h, [])
    else
      match startupWait (startupPass h q).1 qs with
      | none => none
      | some r => some (r.1, (startupPass h q).2 ++ r.2)

/-- The `switch (pitch)` that follows the startup wait. -/
def selectPitch (s : State) (pitch : Nat) : State × List Event :=
  if pitch = 0x000 then
    ({ s with tabStop := 6 },
      [Event.ww_set_printwheel TWELVECPI]
        ++ putstr "Unable to determine printwheel. Defaulting to 12P.\n".toList)
  else if pitch = 0x008 then
    ({ s with tabStop := 6 },
      [Event.ww_set_printwheel TWELVECPI] ++ putstr "PS printwheel\n".toList)
  else if pitch = 0x010 then
    ({ s with tabStop := 7 },
      [Event.ww_set_printwheel FIFTEENCPI] ++ putstr "15P printwheel\n".toList)
  else if pitch = 0x020 then
    ({ s with tabStop := 6 },
      [Event.ww_set_printwheel TWELVECPI] ++ putstr "12P printwheel\n".toList)
  else if pitch = 0x021 then
    ({ s with tabStop := 6 },
      [Event.ww_set_printwheel TWELVECPI] ++ putstr "No printwheel\n".toList)
  else if pitch = 0x040 then
    ({ s with tabStop := 5 },
      [Event.ww_set_printwheel TENCPI] ++ putstr "10P printwheel\n".toList)
  else (s, [])

/-- The part of `main` from `timeout = 7*ONESEC` to the pitch `switch`:
the startup wait from `pitch = 0`, `state = 0`, then the selection. -/
def startup (s : State) (passes : List Pass) : Option (State × List Event) :=
  match startupWait
      { s := { s with timeout := 7 * ONESEC }, pitch := 0, state := 0 } passes with
  | none => none
  | some r =>
    some ((selectPitch r.1.s r.1.pitch).1, r.2 ++ (selectPitch r.1.s r.1.pitch).2)

/-! ## The console side of the router -/

/-- The body of `if (char_avail2()) { ... }` on the console byte `c`. -/
def handleConsole (s : State) (c : Nat) : State × List Event :=
  if c = 0x10 then ({ s with passThrough := !s.passThrough }, [])
  else print_character s c

/-- Handling a list of console bytes in arrival order. -/
def handleConsoleAll : State → List Nat → State × List Event
  | s, [] => (s, [])
  | s, c :: cs =>
    let r := handleConsole s c
    let r2 := handleConsoleAll r.1 cs
    (r2.1, r.2 ++ r2.2)

/-- What can change the globals once the router runs: a timer interrupt, a
console byte, or the toggle of the green LED (bit 7 of port 0) when
`loopcounter` wraps. -/
inductive RouterStep where
  | isr
  | console (c : Nat)
  | heartbeat
  deriving DecidableEq, Repr

/-- The effect of one router step on the globals. -/
def routerStep (s : State) : RouterStep → State
  | RouterStep.isr => timer0_isr s
  | RouterStep.console c => (handleConsole s c).1
  | RouterStep.heartbeat => { s with P0 := s.P0 ^^^ 0x80 }

/-- The globals after a sequence of router steps. -/
def runRouter : State → List RouterStep → State
  | s, [] => s
  | s, x :: xs => runRouter (routerStep s x) xs

/-- The words of a list of timed words. -/
def wordsOf (ws : List (Nat × Nat)) : List Nat := ws.map Prod.snd

/-- The timer interrupts that fire during a list of timed words. -/
def ticksOf : List (Nat × Nat) → Nat
  | [] => 0
  | (n, _) :: ws => n + ticksOf ws

/-- The timer interrupts that fire during a list of passes. -/
def passTicks : List Pass → Nat
  | [] => 0
  | q :: qs => ticksOf q.fb + ticksOf q.pb + q.idle + passTicks qs

/-- The decimal digit character of a number below ten. -/
def digitChar (n : Nat) : Char := Char.ofNat (48 + n)

/-- What a step outside depth 0 may do to the globals that the router and the
column logic depend on: `passThrough` and `column` keep their values, and
`tabStop` either keeps its value or is set to 5, 6 or 7 by 'e', 'p' or 'm'. -/
def PitchFrame (s : State) (c : Nat) (r : State × List Event) : Prop :=
  r.1.passThrough = s.passThrough ∧
  r.1.column = s.column ∧
  (r.1.tabStop = s.tabStop ∨
    ((c = 'e'.toNat ∨ c = 'p'.toNat ∨ c = 'm'.toNat) ∧
      (r.1.tabStop = 5 ∨ r.1.tabStop = 6 ∨ r.1.tabStop = 7)))

/-- A step that writes none of `passThrough`, `column` and `tabStop`. -/
def KeepsLayout (s : State) (r : State × List Event) : Prop :=
  r.1.passThrough = s.passThrough ∧ r.1.column = s.column ∧ r.1.tabStop = s.tabStop

/-- A tab stop that one of the three pitches sets. -/
def TabOk (n : Nat) : Prop := n = 5 ∨ n = 6 ∨ n = 7

/-- The Function Board words of a list of passes, in the order read. -/
def fbWords : List Pass → List Nat
  | [] => []
  | q :: qs => wordsOf q.fb ++ fbWords qs

/-- The uptime in seconds that the clock counters stand for. -/
def uptime (s : State) : Nat := s.hours * 3600 + s.minutes * 60 + s.seconds

/-- A list of words that ends with the word 0x121. -/
def EndsWith121 (pre : List Nat) : Prop := ∃ p : List Nat, pre = p ++ [0x121]

/-- A stream of Function Board words that holds a run of an odd number of
0x121 words, not preceded by a further 0x121, immediately followed by
0x001. -/
def ArmingStream (ws : List Nat) : Prop :=
  ∃ (pre : List Nat) (k : Nat) (post : List Nat),
    ¬ EndsWith121 pre ∧ ws = pre ++ (List.replicate (2 * k + 1) 0x121 ++ 0x001 :: post)

/-- A stream of Function Board words that holds 0x121 immediately followed by
0x001. -/
def HasPreamble (ws : List Nat) : Prop :=
  ∃ pre post : List Nat, ws = pre ++ 0x121 :: 0x001 :: post

/-- The bytes that the `default:` case of depth 0 prints: every byte other
than NUL, BEL, BS, HT, LF, VT, CR and ESC. -/
def printable (c : Nat) : Bool :=
  c != NUL && c != BEL && c != BS && c != HT && c != LF && c != VT && c != CR && c != ESC

/-- A step that prints a character at column 255, the last column the 8-bit
counter holds. -/
def wrapsColumn (s : State) (c : Nat) : Bool :=
  s.escape == 0 && s.column == 255 && printable c

/-- A run of bytes none of which is printed at column 255. -/
def neverWraps : State → List Nat → Bool
  | _, [] => true
  | s, c :: cs => !wrapsColumn s c && neverWraps (print_character s c).1 cs

/-- What a step may do to an 8-bit column that is at least 1: the result
still fits eight bits, and it is 0 exactly when a character is printed at
column 255. -/
def ColumnStep (s : State) (c : Nat) (r : State × List Event) : Prop :=
  r.1.column ≤ 255 ∧ (r.1.column = 0 ↔ (s.column = 255 ∧ printable c = true))

/-- Passes in which nothing is captured, from detector state `st`: in each
pass either the detector is not armed once the Function Board words are read,
or no Printer Board word is read. -/
def QuietFrom : Nat → List Pass → Prop
  | _, [] => True
  | st, q :: qs =>
    ((wordsOf q.fb).foldl matchPreamble st ≠ 2 ∨ q.pb = []) ∧
      QuietFrom ((wordsOf q.fb).foldl matchPreamble st) qs

/-- The print wheels requested among a list of events. -/
def wheelOf : List Event → List Nat
  | [] => []
  | Event.ww_set_printwheel n :: es => n :: wheelOf es
  | _ :: es => wheelOf es

/-! ## Helper lemmas -/

/-- A property of both branches of a conditional holds of the conditional. -/
theorem ite_cases {α : Type} {P : α → Prop} {c : Prop} [Decidable c] {a b : α}
    (ha : c → P a) (hb : ¬ c → P b) : P (if c then a else b) := by
  by_cases h : c
  · rw [if_pos h]; exact ha h
  · rw [if_neg h]; exact hb h

/-- A relayed word list read back from the Printer Board side. -/
theorem printerBoardOf_relay (ws : List Nat) :
    printerBoardOf (ws.map Event.uart4_send) = ws ∧
    consoleOf (ws.map Event.uart4_send) = [] ∧
    ackCount (ws.map Event.uart4_send) = 0 ∧
    functionBoardOf (ws.map Event.uart4_send) = [] := by
  induction ws with
  | nil => exact ⟨rfl, rfl, rfl, rfl⟩
  | cons w t ih =>
    obtain ⟨i1, i2, i3, i4⟩ := ih
    simp [printerBoardOf, consoleOf, ackCount, functionBoardOf, i1, i2, i3, i4]

/-- The decoder returns one character per word. -/
theorem decodeAll_length {κ : Type} (dec : κ → Nat → κ × Nat) (ws : List Nat) :
    ∀ k : κ, (decodeAll dec k ws).length = ws.length := by
  induction ws with
  | nil => intro k; rfl
  | cons w t ih => intro k; simp [decodeAll, ih]

/-- What an intercepting drain sends where. -/
theorem interceptEvents_split (cs : List Nat) :
    ackCount (interceptEvents cs) = cs.length ∧
    printerBoardOf (interceptEvents cs) = [] ∧
    consoleOf (interceptEvents cs) = cs ∧
    functionBoardOf (interceptEvents cs) = [] := by
  induction cs with
  | nil => exact ⟨rfl, rfl, rfl, rfl⟩
  | cons c t ih =>
    obtain ⟨i1, i2, i3, i4⟩ := ih
    simp [interceptEvents, ackCount, printerBoardOf, consoleOf, functionBoardOf,
      i1, i2, i3, i4]

/-- While the column stays within eight bits, the tab loop adds its
iteration count to the column and echoes one space per iteration. -/
theorem tabLoop_eq (n : Nat) : ∀ col : Nat, col + n ≤ 255 →
    tabLoop n col = (col + n, List.replicate n (Event.putchar2 SP)) := by
  induction n with
  | zero => intro col _; rfl
  | succ k ih =>
    intro col h
    have h1 : (col + 1) % 256 = col + 1 := Nat.mod_eq_of_lt (by omega)
    have h2 := ih (col + 1) (by omega)
    simp only [tabLoop, h1, h2, putchar, List.replicate_succ]
    refine Prod.ext ?_ ?_
    · show col + 1 + k = col + (k + 1)
      omega
    · rfl

/-- A small width is its own value as a signed character. -/
theorem toSChar_small (n : Nat) (h : n ≤ 127) : toSChar n = (n : Int) := by
  have h1 : n % 256 = n := Nat.mod_eq_of_lt (by omega)
  unfold toSChar
  rw [h1, if_pos (by omega)]

/-- The console bytes of two runs of events. -/
theorem consoleOf_append (a b : List Event) :
    consoleOf (a ++ b) = consoleOf a ++ consoleOf b := by
  induction a with
  | nil => rfl
  | cons e t ih => cases e <;> simp [consoleOf, ih]

/-- The print wheels requested in two runs of events. -/
theorem wheelOf_append (a b : List Event) : wheelOf (a ++ b) = wheelOf a ++ wheelOf b := by
  induction a with
  | nil => rfl
  | cons e t ih => cases e <;> simp [wheelOf, ih]

/-- Characters written one by one reach the console as their codes, in
order, and request no print wheel. -/
theorem consoleOf_chars (cs : List Char) :
    consoleOf (cs.map (fun ch => Event.putchar2 ch.toNat)) = cs.map Char.toNat ∧
    wheelOf (cs.map (fun ch => Event.putchar2 ch.toNat)) = [] ∧
    actionsOf (cs.map (fun ch => Event.putchar2 ch.toNat)) = [] := by
  induction cs with
  | nil => exact ⟨rfl, rfl, rfl⟩
  | cons c t ih =>
    obtain ⟨i1, i2, i3⟩ := ih
    simp [consoleOf, wheelOf, actionsOf, i1, i2, i3]

/-- Characters written one by one reach the console as their codes. -/
theorem consoleOf_map_putchar2 (cs : List Char) :
    consoleOf (cs.map (fun ch => Event.putchar2 ch.toNat)) = cs.map Char.toNat :=
  (consoleOf_chars cs).1

/-- Characters written to the console request no print wheel. -/
theorem wheelOf_map_putchar2 (cs : List Char) :
    wheelOf (cs.map (fun ch => Event.putchar2 ch.toNat)) = [] :=
  (consoleOf_chars cs).2.1

/-- Characters written to the console are no actuation. -/
theorem actionsOf_map_putchar2 (cs : List Char) :
    actionsOf (cs.map (fun ch => Event.putchar2 ch.toNat)) = [] :=
  (consoleOf_chars cs).2.2

/-- The digit characters are the codes 48 to 57. -/
theorem digitChar_toNat : ∀ n : Nat, n < 10 → (digitChar n).toNat = 48 + n := by
  decide

/-! ## C1: horizontal tab -/

/-- C1 (as stated, refuted): at column 255 with tab width 5 the HT branch
leaves the 8-bit column at 4, not at 255 + 5 - 255 mod 5 = 260. -/
theorem C1_ht_column_wraps :
    ({ powerOn 255 255 255 255 with column := 255 } : State).escape = 0 ∧
    1 ≤ ({ powerOn 255 255 255 255 with column := 255 } : State).column ∧
    0 < ({ powerOn 255 255 255 255 with column := 255 } : State).tabStop ∧
    (print_character { powerOn 255 255 255 255 with column := 255 } HT).1.column = 4 ∧
    (print_character { powerOn 255 255 255 255 with column := 255 } HT).1.column
      ≠ 255 + 5 - 255 % 5 := by
  decide

/-- C1 (amended): in the Idle depth, for every column c (so for c ≥ 1) and positive tab
width t whose advance w = t - (c mod t) fits a signed character (w ≤ 127) and
whose target column c + w fits the 8-bit column (c + w ≤ 255), consuming HT
issues exactly one tab-advance action of width w followed by exactly w echoed
spaces (and no TAB byte), changes nothing but the column, and leaves
column = c + w, the smallest multiple of t strictly greater than c. -/
theorem C1_ht_advances_to_next_stop (s : State) (h0 : s.escape = 0)
    (ht : 0 < s.tabStop)
    (hw : s.tabStop - s.column % s.tabStop ≤ 127)
    (hfit : s.column + (s.tabStop - s.column % s.tabStop) ≤ 255) :
    print_character s HT =
      ({ s with column := s.column + (s.tabStop - s.column % s.tabStop) },
        Event.ww_horizontal_tab ((s.tabStop - s.column % s.tabStop : Nat) : Int)
          :: List.replicate (s.tabStop - s.column % s.tabStop) (Event.putchar2 SP)) ∧
    actionsOf (print_character s HT).2 =
      [Event.ww_horizontal_tab ((s.tabStop - s.column % s.tabStop : Nat) : Int)] ∧
    consoleOf (print_character s HT).2 =
      List.replicate (s.tabStop - s.column % s.tabStop) SP ∧
    HT ∉ consoleOf (print_character s HT).2 ∧
    s.tabStop ∣ s.column + (s.tabStop - s.column % s.tabStop) ∧
    s.column < s.column + (s.tabStop - s.column % s.tabStop) ∧
    (∀ m : Nat, s.tabStop ∣ m → s.column < m →
      s.column + (s.tabStop - s.column % s.tabStop) ≤ m) := by
  have hlt : s.column % s.tabStop < s.tabStop := Nat.mod_lt _ ht
  have hstep : print_character s HT =
      ({ s with column := s.column + (s.tabStop - s.column % s.tabStop) },
        Event.ww_horizontal_tab ((s.tabStop - s.column % s.tabStop : Nat) : Int)
          :: List.replicate (s.tabStop - s.column % s.tabStop) (Event.putchar2 SP)) := by
    unfold print_character escape0
    rw [if_pos h0]
    simp only [HT, NUL, BEL, BS, toSChar_small _ hw, Int.toNat_ofNat,
      tabLoop_eq _ _ hfit]
    simp
  have hcons : ∀ n : Nat, consoleOf (List.replicate n (Event.putchar2 SP))
      = List.replicate n SP := by
    intro n
    induction n with
    | zero => rfl
    | succ k ih => simp [List.replicate_succ, consoleOf, ih]
  have hact : ∀ n : Nat, actionsOf (List.replicate n (Event.putchar2 SP)) = [] := by
    intro n
    induction n with
    | zero => rfl
    | succ k ih => simp [List.replicate_succ, actionsOf, ih]
  have hdvd : s.tabStop ∣ s.column + (s.tabStop - s.column % s.tabStop) := by
    refine ⟨s.column / s.tabStop + 1, ?_⟩
    have hdm := Nat.div_add_mod s.column s.tabStop
    rw [Nat.mul_add, Nat.mul_one]
    omega
  refine ⟨hstep, ?_, ?_, ?_, hdvd, by omega, ?_⟩
  · rw [hstep]
    simp [actionsOf, hact]
  · rw [hstep]
    simp [consoleOf, hcons]
  · rw [hstep]
    simp only [consoleOf, hcons]
    intro hmem
    have := List.eq_of_mem_replicate hmem
    exact absurd this (by decide)
  · rintro m ⟨k, rfl⟩ hm
    have hdm := Nat.div_add_mod s.column s.tabStop
    have hk : s.column / s.tabStop < k := by
      by_contra hle
      have hle2 : k ≤ s.column / s.tabStop := Nat.le_of_not_lt hle
      have := Nat.mul_le_mul_left s.tabStop hle2
      omega
    have := Nat.mul_le_mul_left s.tabStop (Nat.succ_le_of_lt hk)
    rw [Nat.mul_succ] at this
    omega

/-- C1 witness: column 3 with tab width 5 advances by 2 to column 5. -/
theorem C1_ht_advances_to_next_stop_witness :
    print_character { powerOn 255 255 255 255 with column := 3 } HT =
      ({ powerOn 255 255 255 255 with column := 5 },
        [Event.ww_horizontal_tab 2, Event.putchar2 SP, Event.putchar2 SP]) :=
  (C1_ht_advances_to_next_stop { powerOn 255 255 255 255 with column := 3 }
    (by decide) (by decide) (by decide) (by decide)).1

/-! ## C2, C3: carriage return -/

/-- C2 (as stated, refuted): in the Escape1 depth the byte CR is not a
carriage return; the column stays 5 and the bold flag stays set. -/
theorem C2_cr_ignored_in_escape1 :
    (print_character
      { powerOn 255 255 255 255 with escape := 1, column := 5, attrib := 1 } CR).1.column = 5 ∧
    (print_character
      { powerOn 255 255 255 255 with escape := 1, column := 5, attrib := 1 } CR).1.column ≠ 1 ∧
    (print_character
      { powerOn 255 255 255 255 with escape := 1, column := 5, attrib := 1 } CR).1.attrib.testBit 0
      = true := by
  decide

/-- C2 (amended): for every interpreter state in the Idle depth (every
column, tab stop and attribute set), after print_character consumes CR the
column is 1 and the bold, continuous-underline and broken-underline flags are
all clear. -/
theorem C2_cr_resets_column_and_attributes (s : State) (h0 : s.escape = 0) :
    (print_character s CR).1.column = 1 ∧
    (print_character s CR).1.attrib = 0 ∧
    (print_character s CR).1.attrib.testBit 0 = false ∧
    (print_character s CR).1.attrib.testBit 1 = false ∧
    (print_character s CR).1.attrib.testBit 2 = false := by
  have hstep : (print_character s CR).1 = { s with column := 1, attrib := 0 } := by
    unfold print_character escape0
    rw [if_pos h0]
    simp [CR, NUL, BEL, BS, HT, LF, VT]
  rw [hstep]
  simp

/-- C2 witness: column 40 with all three flags set, in the Idle depth. -/
theorem C2_cr_resets_column_and_attributes_witness :
    (print_character { powerOn 255 255 255 255 with column := 40, attrib := 7 } CR).1.column = 1 ∧
    (print_character { powerOn 255 255 255 255 with column := 40, attrib := 7 } CR).1.attrib = 0 :=
  ⟨(C2_cr_resets_column_and_attributes
      { powerOn 255 255 255 255 with column := 40, attrib := 7 } (by decide)).1,
   (C2_cr_resets_column_and_attributes
      { powerOn 255 255 255 255 with column := 40, attrib := 7 } (by decide)).2.1⟩

/-- C3: consuming CR in the Idle depth emits a carrier return followed by a
paper line feed exactly when dip switch 1 is on; when it is off the only
action is one carrier return; either way exactly one CR byte is echoed. -/
theorem C3_cr_linefeed_iff_switch1 (s : State) (h0 : s.escape = 0) :
    (s.switch1 = ON → (print_character s CR).2 =
      [Event.ww_carriage_return, Event.ww_linefeed, Event.putchar2 CR]) ∧
    (s.switch1 = OFF → (print_character s CR).2 =
      [Event.ww_carriage_return, Event.putchar2 CR]) ∧
    (Event.ww_linefeed ∈ (print_character s CR).2 ↔ s.switch1 = ON) ∧
    (actionsOf (print_character s CR).2 =
        [Event.ww_carriage_return, Event.ww_linefeed] ↔ s.switch1 = ON) ∧
    (actionsOf (print_character s CR).2 = [Event.ww_carriage_return] ↔ s.switch1 = OFF) ∧
    consoleOf (print_character s CR).2 = [CR] := by
  have hstep : (print_character s CR).2 =
      [Event.ww_carriage_return]
        ++ (if !s.switch1 then [Event.ww_linefeed] else []) ++ [Event.putchar2 CR] := by
    unfold print_character escape0
    rw [if_pos h0]
    simp [CR, NUL, BEL, BS, HT, LF, VT, putchar]
  rw [hstep]
  cases hsw : s.switch1 <;> simp [ON, OFF, actionsOf, consoleOf]

/-- C3 witness: switch 1 on, in the Idle depth. -/
theorem C3_cr_linefeed_iff_switch1_witness :
    (print_character { powerOn 255 255 255 255 with switch1 := ON } CR).2 =
      [Event.ww_carriage_return, Event.ww_linefeed, Event.putchar2 CR] :=
  (C3_cr_linefeed_iff_switch1 { powerOn 255 255 255 255 with switch1 := ON }
    (by decide)).1 (by decide)

/-! ## C4: printable bytes -/

/-- C4 (as stated, refuted): at column 255 the byte 'A' leaves the 8-bit
column at 0, not at 256. -/
theorem C4_print_column_wraps :
    (print_character { powerOn 255 255 255 255 with column := 255 } 65).1.column = 0 ∧
    (print_character { powerOn 255 255 255 255 with column := 255 } 65).1.column
      ≠ 255 + 1 := by
  decide

/-- C4 (amended): for every byte other than NUL, BEL, BS, HT, LF, VT, CR and
ESC, consuming it in the Idle depth issues exactly one print action carrying
that byte and the current attribute set, echoes exactly that byte, increments
the column by one modulo 256 (by one whenever the column is below 255), and
leaves the attributes, tabStop, the parse depth and the rest of the state
unchanged. -/
theorem C4_printable_byte (s : State) (c : Nat) (h0 : s.escape = 0)
    (h1 : c ≠ NUL) (h2 : c ≠ BEL) (h3 : c ≠ BS) (h4 : c ≠ HT) (h5 : c ≠ LF)
    (h6 : c ≠ VT) (h7 : c ≠ CR) (h8 : c ≠ ESC) :
    print_character s c =
      ({ s with column := (s.column + 1) % 256 },
        [Event.ww_print_letter c s.attrib, Event.putchar2 c]) ∧
    (s.column < 255 → (print_character s c).1.column = s.column + 1) ∧
    (print_character s c).1.attrib = s.attrib ∧
    (print_character s c).1.tabStop = s.tabStop ∧
    (print_character s c).1.escape = s.escape ∧
    actionsOf (print_character s c).2 = [Event.ww_print_letter c s.attrib] ∧
    consoleOf (print_character s c).2 = [c] := by
  have hstep : print_character s c =
      ({ s with column := (s.column + 1) % 256 },
        [Event.ww_print_letter c s.attrib, Event.putchar2 c]) := by
    unfold print_character escape0
    rw [if_pos h0]
    simp [h1, h2, h3, h4, h5, h6, h7, h8, putchar]
  rw [hstep]
  refine ⟨rfl, ?_, rfl, rfl, rfl, rfl, rfl⟩
  intro hlt
  exact Nat.mod_eq_of_lt (by omega)

/-- C4 witness: the letter 'A' at column 1 of the power-on state. -/
theorem C4_printable_byte_witness :
    print_character (powerOn 255 255 255 255) 65 =
      ({ powerOn 255 255 255 255 with column := 2 },
        [Event.ww_print_letter 65 0, Event.putchar2 65]) :=
  (C4_printable_byte (powerOn 255 255 255 255) 65 (by decide) (by decide) (by decide)
    (by decide) (by decide) (by decide) (by decide) (by decide) (by decide)).1

/-! ## C5: backspace -/

/-- C5: consuming BS in the Idle depth with column > 1 issues one carrier
backspace, decrements the column by exactly one and echoes one BS byte; with
column 1 or less it issues nothing, echoes nothing and leaves the whole state
unchanged. -/
theorem C5_backspace (s : State) (h0 : s.escape = 0) :
    (1 < s.column → print_character s BS =
      ({ s with column := s.column - 1 }, [Event.ww_backspace, Event.putchar2 BS])) ∧
    (1 < s.column → (print_character s BS).1.column + 1 = s.column) ∧
    (s.column ≤ 1 → print_character s BS = (s, [])) := by
  have hstep : print_character s BS =
      if s.column > 1 then
        ({ s with column := s.column - 1 }, [Event.ww_backspace, Event.putchar2 BS])
      else (s, []) := by
    unfold print_character escape0
    rw [if_pos h0]
    simp [BS, NUL, BEL, putchar]
  rw [hstep]
  refine ⟨?_, ?_, ?_⟩
  · intro h
    rw [if_pos h]
  · intro h
    rw [if_pos h]
    show s.column - 1 + 1 = s.column
    omega
  · intro h
    rw [if_neg (by omega)]

/-- C5 witness: a backspace at column 9 of the Idle depth. -/
theorem C5_backspace_witness :
    print_character { powerOn 255 255 255 255 with column := 9 } BS =
      ({ powerOn 255 255 255 255 with column := 8 },
        [Event.ww_backspace, Event.putchar2 BS]) :=
  (C5_backspace { powerOn 255 255 255 255 with column := 9 } (by decide)).1 (by decide)

/-! ## C6: attribute commands -/

/-- C6: from the Idle depth, ESC 'O' then ESC '&' leaves both underline
flags as they were and bold clear; ESC 'E' then ESC 'R' leaves the bold flag
as it was and both underline flags clear. -/
theorem C6_bold_and_underline_independent (s : State) (h0 : s.escape = 0) :
    ((consume s [ESC, 'O'.toNat, ESC, '&'.toNat]).1.attrib.testBit 1 = s.attrib.testBit 1 ∧
     (consume s [ESC, 'O'.toNat, ESC, '&'.toNat]).1.attrib.testBit 2 = s.attrib.testBit 2 ∧
     (consume s [ESC, 'O'.toNat, ESC, '&'.toNat]).1.attrib.testBit 0 = false) ∧
    ((consume s [ESC, 'E'.toNat, ESC, 'R'.toNat]).1.attrib.testBit 0 = s.attrib.testBit 0 ∧
     (consume s [ESC, 'E'.toNat, ESC, 'R'.toNat]).1.attrib.testBit 1 = false ∧
     (consume s [ESC, 'E'.toNat, ESC, 'R'.toNat]).1.attrib.testBit 2 = false) := by
  have hb : (consume s [ESC, 'O'.toNat, ESC, '&'.toNat]).1.attrib
      = (s.attrib ||| 0x01) &&& 0x06 := by
    simp [consume, print_character, escape0, escape1, h0, ESC, NUL, BEL, BS, HT, LF, VT, CR]
  have hu : (consume s [ESC, 'E'.toNat, ESC, 'R'.toNat]).1.attrib
      = (s.attrib ||| 0x02) &&& 0x01 := by
    simp [consume, print_character, escape0, escape1, h0, ESC, NUL, BEL, BS, HT, LF, VT, CR]
  have t10 : Nat.testBit 1 0 = true := by decide
  have t11 : Nat.testBit 1 1 = false := by decide
  have t12 : Nat.testBit 1 2 = false := by decide
  have t20 : Nat.testBit 2 0 = false := by decide
  have t60 : Nat.testBit 6 0 = false := by decide
  have t61 : Nat.testBit 6 1 = true := by decide
  have t62 : Nat.testBit 6 2 = true := by decide
  rw [hb, hu]
  simp only [Nat.testBit_and, Nat.testBit_or, t10, t11, t12, t20, t60, t61, t62]
  simp

/-- C6 witness: all three flags set beforehand. -/
theorem C6_bold_and_underline_independent_witness :
    (consume { powerOn 255 255 255 255 with attrib := 7 }
      [ESC, 'O'.toNat, ESC, '&'.toNat]).1.attrib.testBit 1 = true ∧
    (consume { powerOn 255 255 255 255 with attrib := 7 }
      [ESC, 'E'.toNat, ESC, 'R'.toNat]).1.attrib.testBit 0 = true :=
  ⟨(C6_bold_and_underline_independent { powerOn 255 255 255 255 with attrib := 7 }
      (by decide)).1.1.trans (by decide),
   (C6_bold_and_underline_independent { powerOn 255 255 255 255 with attrib := 7 }
      (by decide)).2.1.trans (by decide)⟩

/-! ## C7: pitch selection -/

/-- C7: from the Idle depth ESC only enters Escape1, and the one step that
consumes 'p', 'e' or 'm' there requests the 10-, 12- or 15-cpi print wheel,
sets tabStop to 5, 6 or 7 and returns to Idle, with no echo and with the
column, the attributes and the rest of the state unchanged. -/
theorem C7_pitch_selection (s : State) (h0 : s.escape = 0) :
    print_character s ESC = ({ s with escape := 1 }, []) ∧
    print_character { s with escape := 1 } 'p'.toNat =
      ({ s with tabStop := 5 }, [Event.ww_set_printwheel TENCPI]) ∧
    print_character { s with escape := 1 } 'e'.toNat =
      ({ s with tabStop := 6 }, [Event.ww_set_printwheel TWELVECPI]) ∧
    print_character { s with escape := 1 } 'm'.toNat =
      ({ s with tabStop := 7 }, [Event.ww_set_printwheel FIFTEENCPI]) ∧
    consume s [ESC, 'p'.toNat] =
      ({ s with tabStop := 5 }, [Event.ww_set_printwheel TENCPI]) ∧
    consume s [ESC, 'e'.toNat] =
      ({ s with tabStop := 6 }, [Event.ww_set_printwheel TWELVECPI]) ∧
    consume s [ESC, 'm'.toNat] =
      ({ s with tabStop := 7 }, [Event.ww_set_printwheel FIFTEENCPI]) ∧
    consoleOf (consume s [ESC, 'p'.toNat]).2 = [] ∧
    consoleOf (consume s [ESC, 'e'.toNat]).2 = [] ∧
    consoleOf (consume s [ESC, 'm'.toNat]).2 = [] ∧
    (consume s [ESC, 'p'.toNat]).1.escape = 0 ∧
    (consume s [ESC, 'e'.toNat]).1.escape = 0 ∧
    (consume s [ESC, 'm'.toNat]).1.escape = 0 := by
  have hs : ∀ n : Nat, ({ s with tabStop := n, escape := 0 } : State)
      = { s with tabStop := n } := by
    intro n
    cases s
    simp_all
  have hesc : print_character s ESC = ({ s with escape := 1 }, []) := by
    simp [print_character, escape0, h0, ESC, NUL, BEL, BS, HT, LF, VT, CR]
  have hp : print_character { s with escape := 1 } 'p'.toNat =
      ({ s with tabStop := 5 }, [Event.ww_set_printwheel TENCPI]) := by
    rw [← hs 5]
    simp [print_character, escape1, LF, BS]
  have he : print_character { s with escape := 1 } 'e'.toNat =
      ({ s with tabStop := 6 }, [Event.ww_set_printwheel TWELVECPI]) := by
    rw [← hs 6]
    simp [print_character, escape1, LF, BS]
  have hm : print_character { s with escape := 1 } 'm'.toNat =
      ({ s with tabStop := 7 }, [Event.ww_set_printwheel FIFTEENCPI]) := by
    rw [← hs 7]
    simp [print_character, escape1, LF, BS]
  have hcp : consume s [ESC, 'p'.toNat] =
      ({ s with tabStop := 5 }, [Event.ww_set_printwheel TENCPI]) := by
    simp only [consume, hesc, hp, List.nil_append, List.append_nil]
  have hce : consume s [ESC, 'e'.toNat] =
      ({ s with tabStop := 6 }, [Event.ww_set_printwheel TWELVECPI]) := by
    simp only [consume, hesc, he, List.nil_append, List.append_nil]
  have hcm : consume s [ESC, 'm'.toNat] =
      ({ s with tabStop := 7 }, [Event.ww_set_printwheel FIFTEENCPI]) := by
    simp only [consume, hesc, hm, List.nil_append, List.append_nil]
  refine ⟨hesc, hp, he, hm, hcp, hce, hcm, ?_, ?_, ?_, ?_, ?_, ?_⟩
  · rw [hcp]; rfl
  · rw [hce]; rfl
  · rw [hcm]; rfl
  · rw [hcp]; exact h0
  · rw [hce]; exact h0
  · rw [hcm]; exact h0

/-- C7 witness: selecting the 15-cpi wheel from the power-on state. -/
theorem C7_pitch_selection_witness :
    consume (powerOn 255 255 255 255) [ESC, 'm'.toNat] =
      ({ powerOn 255 255 255 255 with tabStop := 7 }, [Event.ww_set_printwheel 8]) :=
  (C7_pitch_selection (powerOn 255 255 255 255) (by decide)).2.2.2.2.2.2.1

/-! ## C8: an end-to-end run -/

/-- C8: from any Idle state at column 1 with no attributes (the power-on
state among them), ESC 'e' selects the 12-cpi wheel with tabStop 6; 'A' is
then printed at column 1 with an empty attribute set and the column becomes
2; CR then returns the carrier and the column is 1 again; the console echo of
the whole run is 'A' followed by CR. -/
theorem C8_end_to_end (s : State) (h0 : s.escape = 0) (hc : s.column = 1)
    (ha : s.attrib = 0) :
    consume s [ESC, 'e'.toNat] =
      ({ s with tabStop := 6 }, [Event.ww_set_printwheel TWELVECPI]) ∧
    print_character { s with tabStop := 6 } 'A'.toNat =
      ({ s with tabStop := 6, column := 2 },
        [Event.ww_print_letter 'A'.toNat 0, Event.putchar2 'A'.toNat]) ∧
    print_character { s with tabStop := 6, column := 2 } CR =
      ({ s with tabStop := 6 },
        [Event.ww_carriage_return] ++ (if !s.switch1 then [Event.ww_linefeed] else [])
          ++ [Event.putchar2 CR]) ∧
    consume s [ESC, 'e'.toNat, 'A'.toNat, CR] =
      ({ s with tabStop := 6 },
        [Event.ww_set_printwheel TWELVECPI,
         Event.ww_print_letter 'A'.toNat 0, Event.putchar2 'A'.toNat,
         Event.ww_carriage_return] ++ (if !s.switch1 then [Event.ww_linefeed] else [])
          ++ [Event.putchar2 CR]) ∧
    (consume s [ESC, 'e'.toNat, 'A'.toNat, CR]).1.column = 1 ∧
    consoleOf (consume s [ESC, 'e'.toNat, 'A'.toNat, CR]).2 = ['A'.toNat, CR] := by
  obtain ⟨sw, pt, el, at0, col, ts, tmo, hh, mm, ss, esc, tk, p0, p1, p2, p3⟩ := s
  simp only at h0 hc ha
  subst h0 hc ha
  have h1 : consume ⟨sw, pt, el, 0, 1, ts, tmo, hh, mm, ss, 0, tk, p0, p1, p2, p3⟩
      [ESC, 'e'.toNat] =
      (⟨sw, pt, el, 0, 1, 6, tmo, hh, mm, ss, 0, tk, p0, p1, p2, p3⟩,
        [Event.ww_set_printwheel TWELVECPI]) := by
    simp [consume, print_character, escape0, escape1, ESC, NUL, BEL, BS, HT, LF, VT, CR]
  have h2 : print_character ⟨sw, pt, el, 0, 1, 6, tmo, hh, mm, ss, 0, tk, p0, p1, p2, p3⟩
      'A'.toNat =
      (⟨sw, pt, el, 0, 2, 6, tmo, hh, mm, ss, 0, tk, p0, p1, p2, p3⟩,
        [Event.ww_print_letter 'A'.toNat 0, Event.putchar2 'A'.toNat]) := by
    simp [print_character, escape0, putchar, ESC, NUL, BEL, BS, HT, LF, VT, CR]
  have h3 : print_character ⟨sw, pt, el, 0, 2, 6, tmo, hh, mm, ss, 0, tk, p0, p1, p2, p3⟩
      CR =
      (⟨sw, pt, el, 0, 1, 6, tmo, hh, mm, ss, 0, tk, p0, p1, p2, p3⟩,
        [Event.ww_carriage_return] ++ (if !sw then [Event.ww_linefeed] else [])
          ++ [Event.putchar2 CR]) := by
    simp [print_character, escape0, putchar, ESC, NUL, BEL, BS, HT, LF, VT, CR]
  have h4 : consume ⟨sw, pt, el, 0, 1, ts, tmo, hh, mm, ss, 0, tk, p0, p1, p2, p3⟩
      [ESC, 'e'.toNat, 'A'.toNat, CR] =
      (⟨sw, pt, el, 0, 1, 6, tmo, hh, mm, ss, 0, tk, p0, p1, p2, p3⟩,
        [Event.ww_set_printwheel TWELVECPI,
         Event.ww_print_letter 'A'.toNat 0, Event.putchar2 'A'.toNat,
         Event.ww_carriage_return] ++ (if !sw then [Event.ww_linefeed] else [])
          ++ [Event.putchar2 CR]) := by
    simp [consume, print_character, escape0, escape1, putchar, ESC, NUL, BEL, BS, HT,
      LF, VT, CR]
  refine ⟨h1, h2, h3, h4, ?_, ?_⟩
  · rw [h4]
  · rw [h4]
    cases sw <;> simp [consoleOf, CR]

/-- C8 witness: the run from the power-on state, where switch 1 is off. -/
theorem C8_end_to_end_witness :
    consume (powerOn 255 255 255 255) [ESC, 'e'.toNat, 'A'.toNat, CR] =
      ({ powerOn 255 255 255 255 with tabStop := 6 },
        [Event.ww_set_printwheel TWELVECPI,
         Event.ww_print_letter 'A'.toNat 0, Event.putchar2 'A'.toNat,
         Event.ww_carriage_return, Event.putchar2 CR]) :=
  (C8_end_to_end (powerOn 255 255 255 255) (by decide) (by decide) (by decide)).2.2.2.1

/-! ## C9, C10: the Function Board drain -/

/-- C9: with passThrough true, the Function Board drain sends exactly the
pending words to the Printer Board, unmodified and in order, writes nothing
to the console, sends no acknowledgment, and leaves the key decoder alone. -/
theorem C9_pass_through_relays_verbatim {κ : Type} (dec : κ → Nat → κ × Nat)
    (s : State) (k : κ) (ws : List Nat) (hp : s.passThrough = true) :
    drainFunctionBoard dec s k ws = (k, ws.map Event.uart4_send) ∧
    printerBoardOf (drainFunctionBoard dec s k ws).2 = ws ∧
    consoleOf (drainFunctionBoard dec s k ws).2 = [] ∧
    ackCount (drainFunctionBoard dec s k ws).2 = 0 ∧
    functionBoardOf (drainFunctionBoard dec s k ws).2 = [] := by
  have hd : drainFunctionBoard dec s k ws = (k, ws.map Event.uart4_send) := by
    induction ws with
    | nil => rfl
    | cons w t ih => simp [drainFunctionBoard, hp, ih]
  rw [hd]
  obtain ⟨r1, r2, r3, r4⟩ := printerBoardOf_relay ws
  exact ⟨rfl, r1, r2, r3, r4⟩

/-- C9 witness: two words pending in the power-on state, where passThrough
is true. -/
theorem C9_pass_through_relays_verbatim_witness :
    drainFunctionBoard (fun (k : Unit) (w : Nat) => (k, w % 256)) (powerOn 255 255 255 255)
      () [0x121, 0x001] = ((), [Event.uart4_send 0x121, Event.uart4_send 0x001]) :=
  (C9_pass_through_relays_verbatim (fun (k : Unit) (w : Nat) => (k, w % 256))
    (powerOn 255 255 255 255) () [0x121, 0x001] (by decide)).1

/-- C10: with passThrough false, the Function Board drain on n pending words
sends exactly n acknowledgments (one before each console byte), sends nothing
to the Printer Board, and writes to the console exactly the characters the
key decoder returns for the words, one per word in arrival order. -/
theorem C10_intercept_acks_and_decodes {κ : Type} (dec : κ → Nat → κ × Nat)
    (s : State) (k : κ) (ws : List Nat) (hp : s.passThrough = false) :
    ackCount (drainFunctionBoard dec s k ws).2 = ws.length ∧
    printerBoardOf (drainFunctionBoard dec s k ws).2 = [] ∧
    consoleOf (drainFunctionBoard dec s k ws).2 = decodeAll dec k ws ∧
    (consoleOf (drainFunctionBoard dec s k ws).2).length = ws.length ∧
    functionBoardOf (drainFunctionBoard dec s k ws).2 = [] ∧
    (drainFunctionBoard dec s k ws).2 = interceptEvents (decodeAll dec k ws) := by
  have hd : ∀ k : κ, (drainFunctionBoard dec s k ws).2 =
      interceptEvents (decodeAll dec k ws) := by
    induction ws with
    | nil => intro k; rfl
    | cons w t ih =>
      intro k
      simp [drainFunctionBoard, hp, decodeAll, interceptEvents, ih]
  obtain ⟨g1, g2, g3, g4⟩ := interceptEvents_split (decodeAll dec k ws)
  rw [hd k]
  refine ⟨?_, g2, g3, ?_, g4, rfl⟩
  · rw [g1, decodeAll_length]
  · rw [g3, decodeAll_length]

/-- C10 witness: two words pending with interception on. -/
theorem C10_intercept_acks_and_decodes_witness :
    (drainFunctionBoard (fun (k : Unit) (w : Nat) => (k, w % 256))
      { powerOn 255 255 255 255 with passThrough := false } () [0x141, 0x042]).2 =
      [Event.uart3_send_ACK, Event.putchar2 0x41, Event.uart3_send_ACK, Event.putchar2 0x42] :=
  (C10_intercept_acks_and_decodes (fun (k : Unit) (w : Nat) => (k, w % 256))
    { powerOn 255 255 255 255 with passThrough := false } () [0x141, 0x042]
    (by decide)).2.2.2.2.2.trans (by decide)

/-! ## Frame lemmas for the interpreter -/

/-- Depth 0 writes neither `passThrough` nor `tabStop`. -/
theorem escape0_frame (s : State) (c : Nat) :
    (escape0 s c).1.passThrough = s.passThrough ∧ (escape0 s c).1.tabStop = s.tabStop := by
  unfold escape0
  split_ifs <;> exact ⟨rfl, rfl⟩

/-- Depth 1 writes neither `passThrough` nor `column`, and writes `tabStop`
only on 'e', 'p' or 'm', with 6, 5 or 7. -/
theorem escape1_frame (s : State) (c : Nat) : PitchFrame s c (escape1 s c) := by
  unfold escape1
  repeat' (apply ite_cases <;> intro _)
  all_goals first
    | exact ⟨rfl, rfl, Or.inl rfl⟩
    | exact ⟨rfl, rfl, Or.inr ⟨Or.inl (by assumption), Or.inr (Or.inl rfl)⟩⟩
    | exact ⟨rfl, rfl, Or.inr ⟨Or.inr (Or.inl (by assumption)), Or.inl rfl⟩⟩
    | exact ⟨rfl, rfl, Or.inr ⟨Or.inr (Or.inr (by assumption)), Or.inr (Or.inr rfl)⟩⟩

/-- Depth 2 writes none of `passThrough`, `column`, `tabStop`. -/
theorem escape2_frame (s : State) (c : Nat) : KeepsLayout s (escape2 s c) := by
  unfold escape2
  repeat' (apply ite_cases <;> intro _)
  all_goals exact ⟨rfl, rfl, rfl⟩

/-- Depth 3 writes none of `passThrough`, `column`, `tabStop`. -/
theorem escape3_frame (s : State) (c : Nat) : KeepsLayout s (escape3 s c) := by
  unfold escape3
  repeat' (apply ite_cases <;> intro _)
  all_goals exact ⟨rfl, rfl, rfl⟩

/-- Depth 4 writes none of `passThrough`, `column`, `tabStop`. -/
theorem escape4_frame (s : State) (c : Nat) : KeepsLayout s (escape4 s c) := by
  unfold escape4 setRedLED
  repeat' (apply ite_cases <;> intro _)
  all_goals exact ⟨rfl, rfl, rfl⟩

/-- In depth 0 a step is a step of `escape0`. -/
theorem print_character_idle (s : State) (c : Nat) (h0 : s.escape = 0) :
    print_character s c = escape0 s c := by
  unfold print_character
  rw [if_pos h0]

/-- In depth 1 a step is a step of `escape1`. -/
theorem print_character_escape1 (s : State) (c : Nat) (h1 : s.escape = 1) :
    print_character s c = escape1 s c := by
  unfold print_character
  rw [if_neg (by omega), if_pos h1]

/-- Beyond depth 1 a step writes none of `passThrough`, `column`, `tabStop`. -/
theorem print_character_deep (s : State) (c : Nat) (h0 : s.escape ≠ 0)
    (h1 : s.escape ≠ 1) : KeepsLayout s (print_character s c) := by
  unfold print_character
  rw [if_neg h0, if_neg h1]
  by_cases h2 : s.escape = 2
  · rw [if_pos h2]; exact escape2_frame s c
  · rw [if_neg h2]
    by_cases h3 : s.escape = 3
    · rw [if_pos h3]; exact escape3_frame s c
    · rw [if_neg h3]
      by_cases h4 : s.escape = 4
      · rw [if_pos h4]; exact escape4_frame s c
      · rw [if_neg h4]; exact ⟨rfl, rfl, rfl⟩

/-- The interpreter never writes `passThrough`. -/
theorem print_character_passThrough (s : State) (c : Nat) :
    (print_character s c).1.passThrough = s.passThrough := by
  by_cases h0 : s.escape = 0
  · rw [print_character_idle s c h0]
    exact (escape0_frame s c).1
  · by_cases h1 : s.escape = 1
    · rw [print_character_escape1 s c h1]
      exact (escape1_frame s c).1
    · exact (print_character_deep s c h0 h1).1

/-- Outside depth 0 the interpreter never writes `column`. -/
theorem print_character_column (s : State) (c : Nat) (h0 : s.escape ≠ 0) :
    (print_character s c).1.column = s.column := by
  by_cases h1 : s.escape = 1
  · rw [print_character_escape1 s c h1]
    exact (escape1_frame s c).2.1
  · exact (print_character_deep s c h0 h1).2.1

/-- The interpreter writes `tabStop` only in depth 1, on 'e', 'p' or 'm', and
then with 6, 5 or 7. -/
theorem print_character_tabStop (s : State) (c : Nat) :
    (print_character s c).1.tabStop = s.tabStop ∨
    (s.escape = 1 ∧ (c = 'e'.toNat ∨ c = 'p'.toNat ∨ c = 'm'.toNat) ∧
      ((print_character s c).1.tabStop = 5 ∨ (print_character s c).1.tabStop = 6 ∨
        (print_character s c).1.tabStop = 7)) := by
  by_cases h0 : s.escape = 0
  · rw [print_character_idle s c h0]
    exact Or.inl (escape0_frame s c).2
  · by_cases h1 : s.escape = 1
    · rw [print_character_escape1 s c h1]
      rcases (escape1_frame s c).2.2 with h | ⟨hc, ht⟩
      · exact Or.inl h
      · exact Or.inr ⟨h1, hc, ht⟩
    · exact Or.inl (print_character_deep s c h0 h1).2.2

/-! ## C11: the console toggle -/

/-- C11: a console byte 0x10 negates passThrough once, leaves every other
global (the interpreter state among them) as it was and produces no action
and no echo; any other console byte leaves passThrough as it was and is
handled exactly as print_character handles it; k toggle bytes in a row negate
passThrough k times. -/
theorem C11_console_toggle (s : State) :
    handleConsole s 0x10 = ({ s with passThrough := !s.passThrough }, []) ∧
    (handleConsole s 0x10).1.escape = s.escape ∧
    (handleConsole s 0x10).1.column = s.column ∧
    (handleConsole s 0x10).1.attrib = s.attrib ∧
    (handleConsole s 0x10).1.tabStop = s.tabStop ∧
    handleConsole s 0x10 ≠ print_character s 0x10 ∧
    (∀ c : Nat, c ≠ 0x10 → handleConsole s c = print_character s c ∧
      (handleConsole s c).1.passThrough = s.passThrough) ∧
    (∀ k : Nat, handleConsoleAll s (List.replicate k 0x10) =
      ({ s with passThrough := (fun b => !b)^[k] s.passThrough }, [])) ∧
    (∀ k : Nat, (handleConsoleAll s (List.replicate k 0x10)).1.passThrough =
      if k % 2 = 0 then s.passThrough else !s.passThrough) := by
  have hall : ∀ (k : Nat) (u : State), handleConsoleAll u (List.replicate k 0x10) =
      ({ u with passThrough := (fun b => !b)^[k] u.passThrough }, []) := by
    intro k
    induction k with
    | zero => intro u; rfl
    | succ n ih =>
      intro u
      simp only [List.replicate_succ, handleConsoleAll, handleConsole, if_true, ih,
        Function.iterate_succ, Function.comp_apply, List.nil_append]
  have hpar : ∀ (k : Nat) (b : Bool),
      (fun b => !b)^[k] b = if k % 2 = 0 then b else !b := by
    intro k
    induction k with
    | zero => intro b; rfl
    | succ n ih =>
      intro b
      rw [Function.iterate_succ, Function.comp_apply, ih]
      rcases Nat.mod_two_eq_zero_or_one n with h | h
      · have h2 : (n + 1) % 2 = 1 := by omega
        simp [h, h2]
      · have h2 : (n + 1) % 2 = 0 := by omega
        simp [h, h2]
  refine ⟨rfl, rfl, rfl, rfl, rfl, ?_, ?_, fun k => hall k s, ?_⟩
  · intro h
    have h1 := congrArg (fun r => r.1.passThrough) h
    simp only [handleConsole, if_true, print_character_passThrough] at h1
    cases hb : s.passThrough <;> rw [hb] at h1 <;> exact absurd h1 (by decide)
  · intro c hc
    have h1 : handleConsole s c = print_character s c := by
      unfold handleConsole
      rw [if_neg hc]
    exact ⟨h1, by rw [h1, print_character_passThrough]⟩
  · intro k
    rw [hall k s]
    exact hpar k s.passThrough

/-- C11 witness: the console byte 'A' is not the toggle and goes to the
interpreter. -/
theorem C11_console_toggle_witness :
    handleConsole (powerOn 255 255 255 255) 'A'.toNat =
      print_character (powerOn 255 255 255 255) 'A'.toNat ∧
    (handleConsole (powerOn 255 255 255 255) 'A'.toNat).1.passThrough = true :=
  (C11_console_toggle (powerOn 255 255 255 255)).2.2.2.2.2.2.1 'A'.toNat (by decide)

/-! ## C12: Printer Board replies -/

/-- The startup Printer Board loop relays every word read, in order. -/
theorem startupPB_events (ws : List (Nat × Nat)) : ∀ h : Startup,
    (startupPB h ws).2 = (wordsOf ws).map Event.uart3_send := by
  induction ws with
  | nil => intro h; rfl
  | cons w t ih =>
    intro h
    obtain ⟨n, x⟩ := w
    simp only [startupPB, wordsOf, List.map_cons] at ih ⊢
    rw [ih]

/-- What a list of relayed replies sends where. -/
theorem relayed_replies_split (ws : List Nat) :
    functionBoardOf (ws.map Event.uart3_send) = ws ∧
    printerBoardOf (ws.map Event.uart3_send) = [] ∧
    consoleOf (ws.map Event.uart3_send) = [] ∧
    ackCount (ws.map Event.uart3_send) = 0 := by
  induction ws with
  | nil => exact ⟨rfl, rfl, rfl, rfl⟩
  | cons w t ih =>
    obtain ⟨i1, i2, i3, i4⟩ := ih
    simp [printerBoardOf, consoleOf, ackCount, functionBoardOf, i1, i2, i3, i4]

/-- C12: in the steady-state router and in the startup wait alike, whatever
the globals (passThrough among them) and the handshake state, the words read
from the Printer Board are sent to the Function Board unmodified and in
arrival order, and nothing is written to the Printer Board or the console. -/
theorem C12_printer_board_relayed_verbatim (ws : List Nat) (tws : List (Nat × Nat))
    (h : Startup) :
    drainPrinterBoard ws = ws.map Event.uart3_send ∧
    functionBoardOf (drainPrinterBoard ws) = ws ∧
    printerBoardOf (drainPrinterBoard ws) = [] ∧
    consoleOf (drainPrinterBoard ws) = [] ∧
    (startupPB h tws).2 = (wordsOf tws).map Event.uart3_send ∧
    functionBoardOf (startupPB h tws).2 = wordsOf tws ∧
    printerBoardOf (startupPB h tws).2 = [] ∧
    consoleOf (startupPB h tws).2 = [] := by
  have hd : drainPrinterBoard ws = ws.map Event.uart3_send := by
    induction ws with
    | nil => rfl
    | cons w t ih => simp [drainPrinterBoard, ih]
  obtain ⟨a1, a2, a3, _⟩ := relayed_replies_split ws
  obtain ⟨b1, b2, b3, _⟩ := relayed_replies_split (wordsOf tws)
  rw [hd, startupPB_events]
  exact ⟨rfl, a1, a2, a3, rfl, b1, b2, b3⟩

/-! ## C15: pitch codes outside the known ones -/

/-- C15 (as stated, refuted): the captured code 0x05 is non-zero and matches
no case of the pitch switch; no print wheel is requested, nothing is printed
and tabStop keeps its power-on value 5. -/
theorem C15_unknown_code_selects_nothing :
    selectPitch (powerOn 255 255 255 255) 0x05 = (powerOn 255 255 255 255, []) ∧
    (selectPitch (powerOn 255 255 255 255) 0x05).1.tabStop ≠ 6 := by
  decide

/-- C15 (amended): the captured code 0x021 selects the 12-cpi pitch with
tabStop 6 and writes the fourteen characters of "No printwheel" and a newline
to the console; every other non-zero code that is not one of 0x008, 0x010,
0x020, 0x040 matches no case of the switch, so no print wheel is requested,
nothing is printed and the globals keep their values. -/
theorem C15_no_printwheel_code (s : State) (pitch : Nat) :
    (pitch = 0x021 →
      selectPitch s pitch =
        ({ s with tabStop := 6 },
          Event.ww_set_printwheel TWELVECPI ::
            "No printwheel\n".toList.map (fun ch => Event.putchar2 ch.toNat)) ∧
      wheelOf (selectPitch s pitch).2 = [TWELVECPI] ∧
      consoleOf (selectPitch s pitch).2 = "No printwheel\n".toList.map Char.toNat ∧
      consoleOf (selectPitch s pitch).2 =
        [78, 111, 32, 112, 114, 105, 110, 116, 119, 104, 101, 101, 108, 10]) ∧
    (pitch ≠ 0x000 → pitch ≠ 0x008 → pitch ≠ 0x010 → pitch ≠ 0x020 → pitch ≠ 0x021 →
      pitch ≠ 0x040 → selectPitch s pitch = (s, [])) := by
  constructor
  · intro h
    subst h
    have hstep : selectPitch s 0x021 =
        ({ s with tabStop := 6 },
          Event.ww_set_printwheel TWELVECPI ::
            "No printwheel\n".toList.map (fun ch => Event.putchar2 ch.toNat)) := by
      simp [selectPitch, putstr]
    have hbytes : "No printwheel\n".toList.map Char.toNat =
        [78, 111, 32, 112, 114, 105, 110, 116, 119, 104, 101, 101, 108, 10] := by decide
    rw [hstep]
    have hskip : ∀ es : List Event,
        consoleOf (Event.ww_set_printwheel TWELVECPI :: es) = consoleOf es := fun _ => rfl
    have hwheel : ∀ es : List Event,
        wheelOf (Event.ww_set_printwheel TWELVECPI :: es) = TWELVECPI :: wheelOf es :=
      fun _ => rfl
    refine ⟨rfl, ?_, ?_, ?_⟩
    · show wheelOf (Event.ww_set_printwheel TWELVECPI :: _) = [TWELVECPI]
      rw [hwheel, wheelOf_map_putchar2]
    · show consoleOf (Event.ww_set_printwheel TWELVECPI :: _) = _
      rw [hskip, consoleOf_map_putchar2]
    · show consoleOf (Event.ww_set_printwheel TWELVECPI :: _) = _
      rw [hskip, consoleOf_map_putchar2]
      exact hbytes
  · intro h1 h2 h3 h4 h5 h6
    simp [selectPitch, h1, h2, h3, h4, h5, h6]

/-- C15 witness: the code 0x021 in the power-on state. -/
theorem C15_no_printwheel_code_witness :
    consoleOf (selectPitch (powerOn 255 255 255 255) 0x021).2 =
      [78, 111, 32, 112, 114, 105, 110, 116, 119, 104, 101, 101, 108, 10] :=
  ((C15_no_printwheel_code (powerOn 255 255 255 255) 0x021).1 (by decide)).2.2.2

/-! ## C16: the error LED selector -/

/-- C16: in depth 4, a byte with its low bit set sets errorLED; a byte with
its low bit clear clears errorLED and drives the red LED pin to OFF; either
way the depth returns to 0, the column, the attributes and tabStop keep their
values and nothing is printed or echoed. -/
theorem C16_error_led_selector (s : State) (b : Nat) (h4 : s.escape = 4) :
    (b.testBit 0 = true → (print_character s b).1.errorLED = true) ∧
    (b.testBit 0 = false → (print_character s b).1.errorLED = false ∧
      redLED (print_character s b).1 = OFF) ∧
    (print_character s b).1.escape = 0 ∧
    (print_character s b).1.column = s.column ∧
    (print_character s b).1.attrib = s.attrib ∧
    (print_character s b).1.tabStop = s.tabStop ∧
    (print_character s b).2 = [] := by
  have hstep : print_character s b = escape4 s b := by
    unfold print_character
    rw [if_neg (by omega), if_neg (by omega), if_neg (by omega), if_neg (by omega), if_pos h4]
  have hbit : b.testBit 0 = decide (b % 2 = 1) := Nat.testBit_zero b
  have hand : b &&& 1 = b % 2 := Nat.and_one_is_mod b
  have h32 : Nat.testBit 32 5 = true := by decide
  rw [hstep]
  unfold escape4
  rw [hand]
  rcases Nat.mod_two_eq_zero_or_one b with h | h
  · have hb : b.testBit 0 = false := by rw [hbit, h]; rfl
    rw [if_neg (by omega)]
    refine ⟨?_, ?_, rfl, rfl, rfl, rfl, rfl⟩
    · intro hc
      rw [hb] at hc
      exact absurd hc (by decide)
    · intro _
      refine ⟨rfl, ?_⟩
      show (s.P0 ||| 0x20).testBit 5 = true
      rw [Nat.testBit_or, h32, Bool.or_true]
  · have hb : b.testBit 0 = true := by rw [hbit, h]; rfl
    rw [if_pos (by omega)]
    refine ⟨fun _ => rfl, ?_, rfl, rfl, rfl, rfl, rfl⟩
    intro hc
    rw [hb] at hc
    exact absurd hc (by decide)

/-- C16 witness: the byte '0' in depth 4 with the error LED flashing. -/
theorem C16_error_led_selector_witness :
    (print_character { powerOn 0 255 255 255 with escape := 4, errorLED := true }
      '0'.toNat).1.errorLED = false ∧
    redLED (print_character { powerOn 0 255 255 255 with escape := 4, errorLED := true }
      '0'.toNat).1 = OFF :=
  (C16_error_led_selector { powerOn 0 255 255 255 with escape := 4, errorLED := true }
    '0'.toNat (by decide)).2.1 (by decide)

/-! ## C17: the reset command -/

/-- C17 (the code at the failing input): from the power-on state the bytes
ESC, ^Z, 'r' produce no action at all and leave every global as it was; the
step that consumes 'r' only returns the depth to 0. -/
theorem C17_reset_command_does_nothing (p0 p1 p2 p3 : Nat) :
    consume (powerOn p0 p1 p2 p3) [ESC, 0x1A, 'r'.toNat] = (powerOn p0 p1 p2 p3, []) ∧
    print_character { powerOn p0 p1 p2 p3 with escape := 2 } 'r'.toNat =
      (powerOn p0 p1 p2 p3, []) := by
  constructor
  · simp [consume, print_character, escape0, escape1, escape2, powerOn, ESC, NUL, BEL, BS,
      HT, LF, VT, CR]
  · simp [print_character, escape2, powerOn]

/-! ## C18: the uptime report -/

/-- Below 100 the conversion `%02u` gives exactly two digits. -/
theorem fmt_02u_two_digits : ∀ n : Nat, n < 100 →
    fmt_02u n = [digitChar (n / 10), digitChar (n % 10)] := by
  decide

/-- C18 (as stated, refuted): after 100 hours the hours counter holds 100 and
the console receives "Uptime: 100:00:00" and a newline, eighteen bytes whose
hours field has three digits. -/
theorem C18_uptime_three_digit_hours :
    consoleOf (consume { powerOn 255 255 255 255 with hours := 100 }
      [ESC, 0x1A, 'u'.toNat]).2 = "Uptime: 100:00:00\n".toList.map Char.toNat ∧
    consoleOf (consume { powerOn 255 255 255 255 with hours := 100 }
      [ESC, 0x1A, 'u'.toNat]).2 =
      [85, 112, 116, 105, 109, 101, 58, 32, 49, 48, 48, 58, 48, 48, 58, 48, 48, 10] ∧
    (fmt_02u 100).length = 3 := by
  decide

/-- C18 (amended): for every uptime with hours, minutes and seconds all below
100, the query ESC ^Z 'u' from Idle writes to the console the eight bytes of
"Uptime: ", then HH:MM:SS with each field exactly two decimal digits (the
codes 48 + tens and 48 + units), zero-padded, then a newline; it calls no
actuation routine and returns to Idle with every global unchanged. -/
theorem C18_uptime_report (s : State) (h0 : s.escape = 0) (hh : s.hours < 100)
    (hm : s.minutes < 100) (hs : s.seconds < 100) :
    consume s [ESC, 0x1A, 'u'.toNat] =
      (s, ("Uptime: ".toList ++
        [digitChar (s.hours / 10), digitChar (s.hours % 10), ':',
         digitChar (s.minutes / 10), digitChar (s.minutes % 10), ':',
         digitChar (s.seconds / 10), digitChar (s.seconds % 10), '\n']).map
          (fun ch => Event.putchar2 ch.toNat)) ∧
    consoleOf (consume s [ESC, 0x1A, 'u'.toNat]).2 =
      [85, 112, 116, 105, 109, 101, 58, 32,
        48 + s.hours / 10, 48 + s.hours % 10, 58,
        48 + s.minutes / 10, 48 + s.minutes % 10, 58,
        48 + s.seconds / 10, 48 + s.seconds % 10, 10] ∧
    actionsOf (consume s [ESC, 0x1A, 'u'.toNat]).2 = [] ∧
    (consume s [ESC, 0x1A, 'u'.toNat]).1.escape = 0 := by
  obtain ⟨sw, pt, el, at0, col, ts, tmo, hr, mi, se, esc, tk, p0, p1, p2, p3⟩ := s
  simp only at h0 hh hm hs
  subst h0
  have hstep : consume ⟨sw, pt, el, at0, col, ts, tmo, hr, mi, se, 0, tk, p0, p1, p2, p3⟩
      [ESC, 0x1A, 'u'.toNat] =
      (⟨sw, pt, el, at0, col, ts, tmo, hr, mi, se, 0, tk, p0, p1, p2, p3⟩,
        putstr ("Uptime:".toList ++ [' '] ++ fmt_02u hr ++ [':'] ++ fmt_02u mi ++ [':']
          ++ fmt_02u se ++ ['\n'])) := by
    simp [consume, print_character, escape0, escape1, escape2, ESC, NUL, BEL, BS, HT, LF,
      VT, CR]
  have d1 := digitChar_toNat (hr / 10) (by omega)
  have d2 := digitChar_toNat (hr % 10) (by omega)
  have d3 := digitChar_toNat (mi / 10) (by omega)
  have d4 := digitChar_toNat (mi % 10) (by omega)
  have d5 := digitChar_toNat (se / 10) (by omega)
  have d6 := digitChar_toNat (se % 10) (by omega)
  rw [hstep, fmt_02u_two_digits hr hh, fmt_02u_two_digits mi hm, fmt_02u_two_digits se hs]
  refine ⟨rfl, ?_, ?_, rfl⟩
  · show consoleOf (putstr _) = _
    unfold putstr
    rw [consoleOf_map_putchar2]
    simp only [List.map_append, List.map_cons, List.map_nil, d1, d2, d3, d4, d5, d6]
    rfl
  · show actionsOf (putstr _) = _
    unfold putstr
    exact actionsOf_map_putchar2 _

/-- C18 witness: the uptime 7:05:09. -/
theorem C18_uptime_report_witness :
    consoleOf (consume { powerOn 255 255 255 255 with hours := 7, minutes := 5, seconds := 9 }
      [ESC, 0x1A, 'u'.toNat]).2 = "Uptime: 07:05:09\n".toList.map Char.toNat :=
  ((C18_uptime_report { powerOn 255 255 255 255 with hours := 7, minutes := 5, seconds := 9 }
      (by decide) (by decide) (by decide) (by decide)).2.1).trans (by decide)

/-! ## C19: the column invariant -/

/-- While the column fits eight bits, the tab loop adds its iteration count
to the column modulo 256. -/
theorem tabLoop_column (n : Nat) : ∀ col : Nat, col ≤ 255 →
    (tabLoop n col).1 = (col + n) % 256 := by
  induction n with
  | zero =>
    intro col h
    show col = (col + 0) % 256
    rw [Nat.add_zero, Nat.mod_eq_of_lt (by omega)]
  | succ k ih =>
    intro col _
    have hlt : (col + 1) % 256 ≤ 255 := by omega
    simp only [tabLoop]
    rw [ih _ hlt]
    omega

/-- In depth 0, a step from an 8-bit column of at least 1 with a tab stop of
5, 6 or 7 gives column 0 exactly when it prints a character at column 255. -/
theorem escape0_columnStep (s : State) (c : Nat) (hc : 1 ≤ s.column) (hb : s.column ≤ 255)
    (ht : TabOk s.tabStop) : ColumnStep s c (escape0 s c) := by
  have hpos : 0 < s.tabStop := by rcases ht with h | h | h <;> omega
  have hlt : s.column % s.tabStop < s.tabStop := Nat.mod_lt _ hpos
  have hsame : ∀ r : State × List Event, 1 ≤ r.1.column → r.1.column ≤ 255 →
      printable c = false → ColumnStep s c r := by
    intro r h1 h2 hp
    refine ⟨h2, ?_⟩
    constructor
    · intro h
      omega
    · rintro ⟨_, h⟩
      rw [hp] at h
      exact absurd h (by decide)
  unfold escape0
  apply ite_cases <;> intro hN
  · exact hsame _ hc hb (by rw [hN]; decide)
  apply ite_cases <;> intro hBEL
  · exact hsame _ hc hb (by rw [hBEL]; decide)
  apply ite_cases <;> intro hBS
  · apply ite_cases <;> intro h
    · exact hsame _ (by show 1 ≤ s.column - 1; omega) (by show s.column - 1 ≤ 255; omega)
        (by rw [hBS]; decide)
    · exact hsame _ hc hb (by rw [hBS]; decide)
  apply ite_cases <;> intro hHT
  · have hcol : (tabLoop (toSChar (s.tabStop - s.column % s.tabStop)).toNat s.column).1
        = (s.column + (s.tabStop - s.column % s.tabStop)) % 256 := by
      have hw : s.tabStop - s.column % s.tabStop ≤ 127 := by
        rcases ht with h | h | h <;> omega
      rw [toSChar_small _ hw, Int.toNat_ofNat, tabLoop_column _ _ hb]
    have hdm := Nat.div_add_mod s.column s.tabStop
    have hge : 1 ≤ (s.column + (s.tabStop - s.column % s.tabStop)) % 256 := by
      rcases ht with h | h | h <;> rw [h] at hdm hlt ⊢ <;> omega
    refine hsame _ ?_ ?_ (by rw [hHT]; decide)
    · show 1 ≤ (tabLoop (toSChar (s.tabStop - s.column % s.tabStop)).toNat s.column).1
      rw [hcol]
      exact hge
    · show (tabLoop (toSChar (s.tabStop - s.column % s.tabStop)).toNat s.column).1 ≤ 255
      rw [hcol]
      omega
  apply ite_cases <;> intro hLF
  · exact hsame _ hc hb (by rw [hLF]; decide)
  apply ite_cases <;> intro hVT
  · exact hsame _ hc hb (by rw [hVT]; decide)
  apply ite_cases <;> intro hCR
  · exact hsame _ (Nat.le_refl 1) (by show 1 ≤ 255; omega) (by rw [hCR]; decide)
  apply ite_cases <;> intro hESC
  · exact hsame _ hc hb (by rw [hESC]; decide)
  · have hp : printable c = true := by
      simp [printable, hN, hBEL, hBS, hHT, hLF, hVT, hCR, hESC]
    refine ⟨?_, ?_⟩
    · show (s.column + 1) % 256 ≤ 255
      omega
    · show (s.column + 1) % 256 = 0 ↔ (s.column = 255 ∧ printable c = true)
      rw [hp]
      constructor
      · intro h
        exact ⟨by omega, rfl⟩
      · rintro ⟨h, _⟩
        rw [h]

/-- A step from an 8-bit column of at least 1 with a tab stop of 5, 6 or 7:
the column still fits eight bits, the tab stop is still 5, 6 or 7, and the
column is 0 exactly when a character is printed at column 255. -/
theorem print_character_columnStep (s : State) (c : Nat) (hc : 1 ≤ s.column)
    (hb : s.column ≤ 255) (ht : TabOk s.tabStop) :
    (print_character s c).1.column ≤ 255 ∧ TabOk (print_character s c).1.tabStop ∧
    ((print_character s c).1.column = 0 ↔ wrapsColumn s c = true) := by
  have hw : wrapsColumn s c = true ↔ (s.escape = 0 ∧ s.column = 255 ∧ printable c = true) := by
    simp [wrapsColumn, and_assoc]
  have htab : TabOk (print_character s c).1.tabStop := by
    rcases print_character_tabStop s c with h | ⟨_, _, h⟩
    · rw [h]
      exact ht
    · exact h
  by_cases h0 : s.escape = 0
  · obtain ⟨k1, k2⟩ := escape0_columnStep s c hc hb ht
    rw [print_character_idle s c h0]
    refine ⟨k1, by rw [← print_character_idle s c h0]; exact htab, ?_⟩
    rw [hw, k2]
    constructor
    · intro h
      exact ⟨h0, h⟩
    · intro h
      exact h.2
  · rw [print_character_column s c h0]
    refine ⟨hb, htab, ?_⟩
    rw [hw]
    constructor
    · intro h
      omega
    · intro h
      exact absurd h.1 h0

/-- A run of bytes none of which is printed at column 255 keeps an 8-bit
column at least 1. -/
theorem consume_keeps_column (bs : List Nat) : ∀ s : State,
    1 ≤ s.column → s.column ≤ 255 → TabOk s.tabStop → neverWraps s bs = true →
    1 ≤ (consume s bs).1.column := by
  induction bs with
  | nil => intro s hc _ _ _; exact hc
  | cons c cs ih =>
    intro s hc hb ht hn
    simp only [neverWraps, Bool.and_eq_true, Bool.not_eq_true'] at hn
    obtain ⟨k1, k2, k3⟩ := print_character_columnStep s c hc hb ht
    have hne : (print_character s c).1.column ≠ 0 := by
      intro h
      have := k3.mp h
      rw [hn.1] at this
      exact absurd this (by decide)
    exact ih (print_character s c).1 (by omega) k1 k2 hn.2

/-- C19 (as stated, refuted): 255 letters from the power-on state carry the
8-bit column from 1 through 255 to 0. -/
theorem C19_column_reaches_zero :
    (consume (powerOn 255 255 255 255) (List.replicate 255 'A'.toNat)).1.column = 0 ∧
    ¬ 1 ≤ (consume (powerOn 255 255 255 255) (List.replicate 255 'A'.toNat)).1.column := by
  set_option maxRecDepth 100000 in decide

/-- C19 (amended): from every state with an 8-bit column of at least 1 and a
tab stop of 5, 6 or 7 (the power-on state among them), the stored column is
at least 1 after any sequence of consumed bytes in which no character is
printed at column 255; and a single step leaves column 0 exactly when it
prints a character (a byte other than NUL, BEL, BS, HT, LF, VT, CR, ESC, in
depth 0) at column 255. -/
theorem C19_column_invariant_without_wrap (s : State) (bs : List Nat)
    (hc : 1 ≤ s.column) (hb : s.column ≤ 255) (ht : TabOk s.tabStop) :
    (neverWraps s bs = true → 1 ≤ (consume s bs).1.column) ∧
    (∀ c : Nat, (print_character s c).1.column = 0 ↔
      (s.escape = 0 ∧ s.column = 255 ∧ printable c = true)) := by
  refine ⟨consume_keeps_column bs s hc hb ht, ?_⟩
  intro c
  rw [(print_character_columnStep s c hc hb ht).2.2]
  simp [wrapsColumn, and_assoc]

/-- C19 witness: 254 letters from the power-on state reach column 255, a tab
then wraps the counter to 4 and a backspace leaves 3. -/
theorem C19_column_invariant_without_wrap_witness :
    1 ≤ (consume (powerOn 255 255 255 255)
      (List.replicate 254 'A'.toNat ++ [HT, BS])).1.column :=
  (C19_column_invariant_without_wrap (powerOn 255 255 255 255)
    (List.replicate 254 'A'.toNat ++ [HT, BS]) (by decide) (by decide) (Or.inl rfl)).1
    (by set_option maxRecDepth 100000 in decide)

/-! ## The timer and the startup wait: supporting lemmas -/

/-- One timer interrupt counts `timeout` down (never below zero) and writes
none of `tabStop`, `column`, `escape`, `passThrough`. -/
theorem timer0_isr_frame (s : State) :
    (timer0_isr s).timeout = s.timeout - 1 ∧ (timer0_isr s).tabStop = s.tabStop ∧
    (timer0_isr s).column = s.column ∧ (timer0_isr s).escape = s.escape ∧
    (timer0_isr s).passThrough = s.passThrough := by
  unfold timer0_isr setRedLED
  by_cases h : s.timeout = 0
  · simp only [h]
    split_ifs <;> simp_all
  · simp only []
    split_ifs <;> simp_all

/-- After `n` timer interrupts `timeout` is `n` lower (never below zero) and
`tabStop` is as before. -/
theorem ticksElapse_frame (n : Nat) : ∀ s : State,
    (ticksElapse n s).timeout = s.timeout - n ∧ (ticksElapse n s).tabStop = s.tabStop := by
  induction n with
  | zero => intro s; exact ⟨rfl, rfl⟩
  | succ k ih =>
    intro s
    obtain ⟨a, b⟩ := ih (timer0_isr s)
    obtain ⟨c, d, _⟩ := timer0_isr_frame s
    simp only [ticksElapse]
    rw [a, b, c, d]
    exact ⟨by omega, rfl⟩

/-- Timer interrupts in two batches. -/
theorem ticksElapse_add (a : Nat) : ∀ (b : Nat) (s : State),
    ticksElapse (a + b) s = ticksElapse b (ticksElapse a s) := by
  induction a with
  | zero => intro b s; simp [ticksElapse]
  | succ k ih =>
    intro b s
    have : k + 1 + b = (k + b) + 1 := by omega
    rw [this]
    simp only [ticksElapse]
    exact ih b (timer0_isr s)

/-- The preamble matcher never enters state 3, and leaves states 2 and above
alone. -/
theorem matchPreamble_facts (st w : Nat) :
    (st ≠ 3 → matchPreamble st w ≠ 3) ∧ (2 ≤ st → matchPreamble st w = st) ∧
    (st = 0 → w ≠ 0x121 → matchPreamble st w = 0) := by
  unfold matchPreamble
  refine ⟨?_, ?_, ?_⟩
  · intro h
    split_ifs <;> omega
  · intro h
    rw [if_neg (by omega), if_neg (by omega)]
  · intro h hw
    rw [if_pos h, if_neg hw]

/-- The matcher over a list of words, from states 2 and above. -/
theorem foldl_matchPreamble_armed (ws : List Nat) : ∀ st : Nat, 2 ≤ st →
    ws.foldl matchPreamble st = st := by
  induction ws with
  | nil => intro st _; rfl
  | cons w t ih =>
    intro st h
    simp only [List.foldl_cons]
    rw [(matchPreamble_facts st w).2.1 h]
    exact ih st h

/-- The matcher never enters state 3 over a list of words. -/
theorem foldl_matchPreamble_ne3 (ws : List Nat) : ∀ st : Nat, st ≠ 3 →
    ws.foldl matchPreamble st ≠ 3 := by
  induction ws with
  | nil => intro st h; exact h
  | cons w t ih =>
    intro st h
    simp only [List.foldl_cons]
    exact ih _ ((matchPreamble_facts st w).1 h)

/-- The matcher stays in state 0 over words none of which is 0x121. -/
theorem foldl_matchPreamble_idle (ws : List Nat) (h : 0x121 ∉ ws) :
    ws.foldl matchPreamble 0 = 0 := by
  induction ws with
  | nil => rfl
  | cons w t ih =>
    simp only [List.foldl_cons]
    have hw : w ≠ 0x121 := fun e => h (by rw [e]; exact List.mem_cons_self _ _)
    rw [(matchPreamble_facts 0 w).2.2 rfl hw]
    exact ih (fun hm => h (List.mem_cons_of_mem _ hm))

/-- The matcher is armed by 0x121 immediately followed by 0x001, after words
none of which is 0x121 and before any words at all. -/
theorem foldl_matchPreamble_preamble (pre post : List Nat) (h : 0x121 ∉ pre) :
    (pre ++ 0x121 :: 0x001 :: post).foldl matchPreamble 0 = 2 := by
  rw [List.foldl_append, foldl_matchPreamble_idle pre h]
  simp only [List.foldl_cons]
  have h1 : matchPreamble 0 0x121 = 1 := by decide
  have h2 : matchPreamble 1 0x001 = 2 := by decide
  rw [h1, h2]
  exact foldl_matchPreamble_armed post 2 (Nat.le_refl 2)

/-- The startup Function Board loop: the timer runs, `pitch` is untouched and
`state` follows the matcher over the words read. -/
theorem startupFB_spec (ws : List (Nat × Nat)) : ∀ h : Startup,
    (startupFB h ws).1 =
      { s := ticksElapse (ticksOf ws) h.s, pitch := h.pitch,
        state := (wordsOf ws).foldl matchPreamble h.state } := by
  induction ws with
  | nil => intro h; rfl
  | cons w t ih =>
    intro h
    obtain ⟨n, x⟩ := w
    simp only [startupFB, ticksOf, wordsOf, List.map_cons, List.foldl_cons] at ih ⊢
    rw [ih, ticksElapse_add]

/-- The startup Printer Board loop outside state 2: only the timer runs. -/
theorem startupPB_quiet (ws : List (Nat × Nat)) : ∀ h : Startup, h.state ≠ 2 →
    (startupPB h ws).1 = { h with s := ticksElapse (ticksOf ws) h.s } := by
  induction ws with
  | nil => intro h _; rfl
  | cons w t ih =>
    intro h hs
    obtain ⟨n, x⟩ := w
    simp only [startupPB, ticksOf, if_neg hs]
    have hq := ih ⟨ticksElapse n h.s, h.pitch, h.state⟩ hs
    rw [hq, ticksElapse_add]

/-- The startup Printer Board loop in state 2: the first word is captured as
the pitch, `timeout` is set to 1 and the state becomes 3. -/
theorem startupPB_capture (n w : Nat) (ws : List (Nat × Nat)) (h : Startup)
    (hs : h.state = 2) :
    (startupPB h ((n, w) :: ws)).1 =
      { s := ticksElapse (ticksOf ws) { ticksElapse n h.s with timeout := 1 },
        pitch := w % 256, state := 3 } := by
  simp only [startupPB, if_pos hs]
  exact startupPB_quiet ws ⟨{ ticksElapse n h.s with timeout := 1 }, w % 256, 3⟩
    (Nat.succ_ne_self 2)

/-- What one pass of the startup wait preserves: `tabStop`; state 3 together
with the pitch; the fact that the pitch is 0 unless the state is 3. -/
theorem startupPass_frame (h : Startup) (q : Pass) :
    (startupPass h q).1.s.tabStop = h.s.tabStop ∧
    (h.state = 3 → (startupPass h q).1.state = 3 ∧ (startupPass h q).1.pitch = h.pitch) ∧
    (h.state = 3 ∨ h.pitch = 0 →
      (startupPass h q).1.state = 3 ∨ (startupPass h q).1.pitch = 0) := by
  have hfb := startupFB_spec q.fb h
  by_cases h2 : (startupFB h q.fb).1.state = 2
  · have hst : h.state ≠ 3 := by
      intro h3
      rw [hfb] at h2
      simp only at h2
      rw [h3, foldl_matchPreamble_armed _ 3 (by decide)] at h2
      exact absurd h2 (by decide)
    cases hpb : q.pb with
    | nil =>
      have hp : (startupPass h q).1 =
          { (startupFB h q.fb).1 with s := ticksElapse q.idle (startupFB h q.fb).1.s } := by
        simp only [startupPass, hpb, startupPB]
      rw [hp, hfb]
      refine ⟨?_, fun h3 => absurd h3 hst, ?_⟩
      · simp only [(ticksElapse_frame _ _).2]
      · intro hj
        rcases hj with hj | hj
        · exact absurd hj hst
        · exact Or.inr hj
    | cons x xs =>
      obtain ⟨n, w⟩ := x
      have hp : (startupPass h q).1 =
          { s := ticksElapse q.idle
              (ticksElapse (ticksOf xs)
                { ticksElapse n (startupFB h q.fb).1.s with timeout := 1 }),
            pitch := w % 256, state := 3 } := by
        simp only [startupPass, hpb]
        rw [startupPB_capture n w xs _ h2]
      rw [hp, hfb]
      refine ⟨?_, fun h3 => absurd h3 hst, fun _ => Or.inl rfl⟩
      simp only [(ticksElapse_frame _ _).2]
  · have hp : (startupPass h q).1 =
        { (startupFB h q.fb).1 with
          s := ticksElapse q.idle (ticksElapse (ticksOf q.pb) (startupFB h q.fb).1.s) } := by
      simp only [startupPass]
      rw [startupPB_quiet q.pb _ h2]
    rw [hp, hfb]
    refine ⟨?_, ?_, ?_⟩
    · simp only [(ticksElapse_frame _ _).2]
    · intro h3
      refine ⟨?_, rfl⟩
      show (wordsOf q.fb).foldl matchPreamble h.state = 3
      rw [h3]
      exact foldl_matchPreamble_armed _ 3 (by decide)
    · intro hj
      rcases hj with hj | hj
      · left
        show (wordsOf q.fb).foldl matchPreamble h.state = 3
        rw [hj]
        exact foldl_matchPreamble_armed _ 3 (by decide)
      · exact Or.inr hj

/-- A property of the handshake state that every pass on offer preserves
holds when the startup wait returns. -/
theorem startupWait_preserves (I : Startup → Prop) (passes : List Pass) :
    (∀ q : Pass, q ∈ passes → ∀ h : Startup, I h → I (startupPass h q).1) →
    ∀ (h : Startup) (r : Startup × List Event),
    I h → startupWait h passes = some r → I r.1 := by
  induction passes with
  | nil =>
    intro _ h r hi hr
    simp only [startupWait] at hr
    split_ifs at hr
    cases hr
    exact hi
  | cons q qs ih =>
    intro hI h r hi hr
    simp only [startupWait] at hr
    split_ifs at hr
    · cases hr
      exact hi
    · cases hw : startupWait (startupPass h q).1 qs with
      | none => rw [hw] at hr; cases hr
      | some r2 =>
        rw [hw] at hr
        cases hr
        exact ih (fun x hx => hI x (List.mem_cons_of_mem _ hx)) _ r2
          (hI q (List.mem_cons_self _ _) h hi) hw

/-- A pass in which nothing is captured: either the matcher is not armed once
the Function Board words are read, or no Printer Board word is read. -/
theorem startupPass_quiet (h : Startup) (q : Pass)
    (hq : (wordsOf q.fb).foldl matchPreamble h.state ≠ 2 ∨ q.pb = []) :
    (startupPass h q).1 =
      { s := ticksElapse (ticksOf q.fb + ticksOf q.pb + q.idle) h.s, pitch := h.pitch,
        state := (wordsOf q.fb).foldl matchPreamble h.state } := by
  have hfb := startupFB_spec q.fb h
  rcases hq with hq | hq
  · have h2 : (startupFB h q.fb).1.state ≠ 2 := by rw [hfb]; exact hq
    simp only [startupPass]
    rw [startupPB_quiet q.pb _ h2, hfb, ticksElapse_add, ticksElapse_add]
  · simp only [startupPass, hq, startupPB, ticksOf, Nat.add_zero]
    rw [hfb, ticksElapse_add]

/-- The Function Board words of passes followed by one more pass. -/
theorem fbWords_snoc (Q : List Pass) (q : Pass) :
    fbWords (Q ++ [q]) = fbWords Q ++ wordsOf q.fb := by
  induction Q with
  | nil => simp [fbWords]
  | cons a t ih => simp [fbWords, ih]

/-- Timer interrupts over two runs of passes. -/
theorem passTicks_append (A Q : List Pass) :
    passTicks (A ++ Q) = passTicks A + passTicks Q := by
  induction A with
  | nil => simp [passTicks]
  | cons a t ih =>
    show passTicks (a :: (t ++ Q)) = passTicks (a :: t) + passTicks Q
    simp only [passTicks]
    rw [ih]
    omega

/-- What the pitch switch does on the three pitch codes of the printwheels
and on a pitch of zero. -/
theorem selectPitch_known (s : State) :
    selectPitch s 0x010 =
      ({ s with tabStop := 7 },
        Event.ww_set_printwheel FIFTEENCPI :: putstr "15P printwheel\n".toList) ∧
    selectPitch s 0x020 =
      ({ s with tabStop := 6 },
        Event.ww_set_printwheel TWELVECPI :: putstr "12P printwheel\n".toList) ∧
    selectPitch s 0x040 =
      ({ s with tabStop := 5 },
        Event.ww_set_printwheel TENCPI :: putstr "10P printwheel\n".toList) ∧
    selectPitch s 0x000 =
      ({ s with tabStop := 6 },
        Event.ww_set_printwheel TWELVECPI ::
          putstr "Unable to determine printwheel. Defaulting to 12P.\n".toList) := by
  refine ⟨?_, ?_, ?_, ?_⟩ <;> simp [selectPitch]

/-- The pitch switch keeps the tab stop among 5, 6 and 7. -/
theorem selectPitch_tabStop (s : State) (pitch : Nat) (ht : TabOk s.tabStop) :
    TabOk (selectPitch s pitch).1.tabStop := by
  unfold selectPitch
  split_ifs
  · exact Or.inr (Or.inl rfl)
  · exact Or.inr (Or.inl rfl)
  · exact Or.inr (Or.inr rfl)
  · exact Or.inr (Or.inl rfl)
  · exact Or.inr (Or.inl rfl)
  · exact Or.inl rfl
  · exact ht

/-- A result of `startup` is a result of the startup wait followed by the
pitch switch. -/
theorem startup_some (s : State) (passes : List Pass) (r : State × List Event)
    (hr : startup s passes = some r) :
    ∃ r0 : Startup × List Event,
      startupWait { s := { s with timeout := 7 * ONESEC }, pitch := 0, state := 0 } passes
        = some r0 ∧
      r = ((selectPitch r0.1.s r0.1.pitch).1, r0.2 ++ (selectPitch r0.1.s r0.1.pitch).2) := by
  unfold startup at hr
  cases hw : startupWait
      { s := { s with timeout := 7 * ONESEC }, pitch := 0, state := 0 } passes with
  | none => rw [hw] at hr; cases hr
  | some r0 =>
    rw [hw] at hr
    cases hr
    exact ⟨r0, rfl, rfl⟩

/-- After one pass `timeout` is at most the larger of its old value and 1,
less the timer interrupts that fire at the end of the pass. -/
theorem startupPass_timeout (h : Startup) (q : Pass) :
    (startupPass h q).1.s.timeout ≤ max h.s.timeout 1 - q.idle := by
  have hfb := startupFB_spec q.fb h
  by_cases h2 : (startupFB h q.fb).1.state = 2
  · cases hpb : q.pb with
    | nil =>
      have hp := startupPass_quiet h q (Or.inr hpb)
      rw [hp]
      simp only [(ticksElapse_frame _ _).1]
      omega
    | cons x xs =>
      obtain ⟨n, w⟩ := x
      have hp : (startupPass h q).1 =
          { s := ticksElapse q.idle
              (ticksElapse (ticksOf xs)
                { ticksElapse n (startupFB h q.fb).1.s with timeout := 1 }),
            pitch := w % 256, state := 3 } := by
        simp only [startupPass, hpb]
        rw [startupPB_capture n w xs _ h2]
      rw [hp]
      simp only [(ticksElapse_frame _ _).1]
      omega
  · have hp := startupPass_quiet h q (Or.inl (by rw [hfb] at h2; exact h2))
    rw [hp]
    simp only [(ticksElapse_frame _ _).1]
    omega

/-- The startup wait returns once a pass ends with enough timer interrupts:
at least the value of `timeout` at its start, and at least one. -/
theorem startupWait_returns (P : List Pass) : ∀ (h : Startup) (q : Pass),
    max h.s.timeout 1 ≤ q.idle → ∃ r : Startup × List Event,
      startupWait h (P ++ [q]) = some r := by
  induction P with
  | nil =>
    intro h q hq
    by_cases ht : h.s.timeout = 0
    · exact ⟨(h, []), by simp [startupWait, ht]⟩
    · have hz : (startupPass h q).1.s.timeout = 0 := by
        have := startupPass_timeout h q
        omega
      exact ⟨((startupPass h q).1, (startupPass h q).2 ++ []), by
        simp [startupWait, ht, hz]⟩
  | cons a t ih =>
    intro h q hq
    by_cases ht : h.s.timeout = 0
    · exact ⟨(h, []), by simp [startupWait, ht]⟩
    · have hb := startupPass_timeout h a
      obtain ⟨r2, hr2⟩ := ih (startupPass h a).1 q (by omega)
      exact ⟨(r2.1, (startupPass h a).2 ++ r2.2), by
        simp [startupWait, ht, hr2]⟩

/-! ## C20: the tab stop -/

/-- A router step writes `tabStop` only when it hands 'e', 'p' or 'm' to the
interpreter in depth 1, and then with 5, 6 or 7. -/
theorem routerStep_tabStop (u : State) (x : RouterStep) :
    (routerStep u x).tabStop = u.tabStop ∨
    ((∃ c : Nat, x = RouterStep.console c ∧ u.escape = 1 ∧
        (c = 'e'.toNat ∨ c = 'p'.toNat ∨ c = 'm'.toNat)) ∧
      TabOk (routerStep u x).tabStop) := by
  cases x with
  | isr => exact Or.inl (timer0_isr_frame u).2.1
  | heartbeat => exact Or.inl rfl
  | console c =>
    by_cases hc : c = 0x10
    · left
      simp only [routerStep, handleConsole, if_pos hc]
    · have hh : (routerStep u (RouterStep.console c)) = (print_character u c).1 := by
        simp only [routerStep, handleConsole, if_neg hc]
      rw [hh]
      rcases print_character_tabStop u c with h | ⟨h1, h2, h3⟩
      · exact Or.inl h
      · exact Or.inr ⟨⟨c, rfl, h1, h2⟩, h3⟩

/-- The router keeps the tab stop among 5, 6 and 7. -/
theorem runRouter_tabStop (steps : List RouterStep) : ∀ u : State,
    TabOk u.tabStop → TabOk (runRouter u steps).tabStop := by
  induction steps with
  | nil => intro u h; exact h
  | cons x xs ih =>
    intro u h
    simp only [runRouter]
    apply ih
    rcases routerStep_tabStop u x with e | ⟨_, e⟩
    · rw [e]
      exact h
    · exact e

/-- C20: from every state whose tab stop is 5, 6 or 7 (the power-on state has
5), whatever the startup wait reads and captures and whatever router steps
follow (timer interrupts, console bytes, heartbeats), tabStop is 5, 6 or 7
and so not zero; the startup wait itself leaves tabStop alone, the pitch
switch keeps it in range for every pitch code, and an interpreter step or a
router step changes it only by consuming 'e', 'p' or 'm' in depth 1. -/
theorem C20_tabStop_is_5_6_or_7 (s : State) (passes : List Pass) (r : State × List Event)
    (steps : List RouterStep) (h5 : TabOk s.tabStop)
    (hr : startup s passes = some r) :
    TabOk (runRouter r.1 steps).tabStop ∧
    (runRouter r.1 steps).tabStop ≠ 0 ∧
    (∀ (h : Startup) (r0 : Startup × List Event),
      startupWait h passes = some r0 → r0.1.s.tabStop = h.s.tabStop) ∧
    (∀ (u : State) (pitch : Nat), TabOk u.tabStop → TabOk (selectPitch u pitch).1.tabStop) ∧
    (∀ (u : State) (c : Nat), (print_character u c).1.tabStop ≠ u.tabStop →
      u.escape = 1 ∧ (c = 'e'.toNat ∨ c = 'p'.toNat ∨ c = 'm'.toNat)) ∧
    (∀ (u : State) (x : RouterStep), (routerStep u x).tabStop ≠ u.tabStop →
      ∃ c : Nat, x = RouterStep.console c ∧ u.escape = 1 ∧
        (c = 'e'.toNat ∨ c = 'p'.toNat ∨ c = 'm'.toNat)) := by
  have hwait : ∀ (h : Startup) (r0 : Startup × List Event),
      startupWait h passes = some r0 → r0.1.s.tabStop = h.s.tabStop := by
    intro h r0 hw
    exact startupWait_preserves (fun x => x.s.tabStop = h.s.tabStop) passes
      (fun q _ x hx => ((startupPass_frame x q).1).trans hx) h r0 rfl hw
  obtain ⟨r0, hw, hreq⟩ := startup_some s passes r hr
  have hr0 : TabOk r0.1.s.tabStop := by
    rw [hwait _ r0 hw]
    exact h5
  have hr1 : TabOk r.1.tabStop := by
    rw [hreq]
    exact selectPitch_tabStop _ _ hr0
  have hrun := runRouter_tabStop steps r.1 hr1
  refine ⟨hrun, ?_, hwait, fun u p h => selectPitch_tabStop u p h, ?_, ?_⟩
  · rcases hrun with h | h | h <;> omega
  · intro u c hne
    rcases print_character_tabStop u c with h | ⟨h1, h2, _⟩
    · exact absurd h hne
    · exact ⟨h1, h2⟩
  · intro u x hne
    rcases routerStep_tabStop u x with h | ⟨h1, _⟩
    · exact absurd h hne
    · exact h1

/-- C20 witness: the handshake finds the 15-cpi wheel, then the console sends
ESC 'p', a timer interrupt fires and a tab is printed at tab stop 5. -/
theorem C20_tabStop_is_5_6_or_7_witness :
    TabOk (runRouter
      { powerOn 255 255 255 255 with tabStop := 7, timeout := 0, ticks := 1 }
      [RouterStep.console ESC, RouterStep.console 'p'.toNat, RouterStep.isr,
        RouterStep.console HT]).tabStop :=
  (C20_tabStop_is_5_6_or_7 (powerOn 255 255 255 255)
    [⟨[(0, 0x121), (0, 0x001)], [(0, 0x010)], 1⟩]
    ({ powerOn 255 255 255 255 with tabStop := 7, timeout := 0, ticks := 1 },
      [Event.uart4_send 0x121, Event.uart4_send 0x001, Event.uart3_send 0x010,
        Event.ww_set_printwheel FIFTEENCPI] ++ putstr "15P printwheel\n".toList)
    [RouterStep.console ESC, RouterStep.console 'p'.toNat, RouterStep.isr,
      RouterStep.console HT]
    (Or.inl rfl) (by decide)).1

/-! ## C21: bytes that continue no sequence -/

/-- C21: in depth 1, 2 or 3 a byte that is none of the continuations of that
depth changes nothing at all: the depth stays where it is instead of
returning to Idle, the column, the attributes, tabStop and every other global
keep their values, and there is no action and no console output. -/
theorem C21_unrecognised_byte_is_ignored (s : State) (c : Nat) :
    (s.escape = 1 →
      c ∉ ['O'.toNat, '&'.toNat, 'E'.toNat, 'R'.toNat, 'X'.toNat, 'U'.toNat, 'D'.toNat,
        LF, BS, 'b'.toNat, 'e'.toNat, 'p'.toNat, 'm'.toNat, 'u'.toNat, 'd'.toNat, 0x1A] →
      print_character s c = (s, []) ∧ (print_character s c).1.escape = 1) ∧
    (s.escape = 2 →
      c ∉ ['c'.toNat, 'k'.toNat, 'e'.toNat, 'p'.toNat, 'r'.toNat, 'u'.toNat, 'w'.toNat] →
      print_character s c = (s, []) ∧ (print_character s c).1.escape = 2) ∧
    (s.escape = 3 →
      c ∉ ['0'.toNat, '1'.toNat, '2'.toNat, '3'.toNat] →
      print_character s c = (s, []) ∧ (print_character s c).1.escape = 3) := by
  refine ⟨?_, ?_, ?_⟩
  · intro h1 hc
    simp only [List.mem_cons, List.mem_singleton, not_or, List.mem_nil_iff, not_false_eq_true,
      and_true] at hc
    obtain ⟨c1, c2, c3, c4, c5, c6, c7, c8, c9, c10, c11, c12, c13, c14, c15, c16⟩ := hc
    have hstep : print_character s c = (s, []) := by
      rw [print_character_escape1 s c h1]
      unfold escape1
      rw [if_neg c1, if_neg c2, if_neg c3, if_neg c4, if_neg c5, if_neg c6, if_neg c7,
        if_neg c8, if_neg c9, if_neg c10, if_neg c11, if_neg c12, if_neg c13, if_neg c14,
        if_neg c15, if_neg c16]
    rw [hstep]
    exact ⟨rfl, h1⟩
  · intro h2 hc
    simp only [List.mem_cons, List.mem_singleton, not_or, List.mem_nil_iff, not_false_eq_true,
      and_true] at hc
    obtain ⟨c1, c2, c3, c4, c5, c6, c7⟩ := hc
    have hstep : print_character s c = (s, []) := by
      unfold print_character
      rw [if_neg (by omega), if_neg (by omega), if_pos h2]
      unfold escape2
      rw [if_neg c1, if_neg c2, if_neg c3, if_neg c4, if_neg c5, if_neg c6, if_neg c7]
    rw [hstep]
    exact ⟨rfl, h2⟩
  · intro h3 hc
    simp only [List.mem_cons, List.mem_singleton, not_or, List.mem_nil_iff, not_false_eq_true,
      and_true] at hc
    obtain ⟨c1, c2, c3, c4⟩ := hc
    have hstep : print_character s c = (s, []) := by
      unfold print_character
      rw [if_neg (by omega), if_neg (by omega), if_neg (by omega), if_pos h3]
      unfold escape3
      rw [if_neg c1, if_neg c2, if_neg c3, if_neg c4]
    rw [hstep]
    exact ⟨rfl, h3⟩

/-- C21 witness: the byte 'z' in depth 1 leaves the interpreter in depth 1. -/
theorem C21_unrecognised_byte_is_ignored_witness :
    print_character { powerOn 255 255 255 255 with escape := 1 } 'z'.toNat =
      ({ powerOn 255 255 255 255 with escape := 1 }, []) :=
  ((C21_unrecognised_byte_is_ignored { powerOn 255 255 255 255 with escape := 1 }
    'z'.toNat).1 (by decide) (by decide)).1

/-! ## C23: the uptime clock -/

/-- A timer interrupt that is not the 20th only moves the tick counter. -/
theorem timer0_isr_quiet (s : State) (ht : (s.ticks + 1) % 256 ≠ 20) :
    (timer0_isr s).ticks = (s.ticks + 1) % 256 ∧
    (timer0_isr s).seconds = s.seconds ∧ (timer0_isr s).minutes = s.minutes ∧
    (timer0_isr s).hours = s.hours := by
  unfold timer0_isr
  by_cases h0 : s.timeout = 0
  · simp only [h0, ne_eq, not_true_eq_false, if_false]
    rw [if_neg ht]
    exact ⟨rfl, rfl, rfl, rfl⟩
  · simp only [ne_eq, h0, not_false_eq_true, if_true]
    rw [if_neg ht]
    exact ⟨rfl, rfl, rfl, rfl⟩

/-- The 20th timer interrupt restarts the tick counter and advances the clock
by one second, carrying into minutes and hours at 60, as long as the clock is
not at 255:59:59. -/
theorem timer0_isr_second (s : State) (ht : (s.ticks + 1) % 256 = 20)
    (hs : s.seconds < 60) (hm : s.minutes < 60) (hh : s.hours ≤ 255)
    (hlast : ¬ (s.hours = 255 ∧ s.minutes = 59 ∧ s.seconds = 59)) :
    (timer0_isr s).ticks = 0 ∧ (timer0_isr s).seconds < 60 ∧
    (timer0_isr s).minutes < 60 ∧ (timer0_isr s).hours ≤ 255 ∧
    uptime (timer0_isr s) = uptime s + 1 := by
  unfold timer0_isr setRedLED uptime
  simp only [ht]
  split_ifs <;> simp_all <;> omega

/-- Timer interrupts short of the 20th leave the clock alone. -/
theorem ticksElapse_quiet (n : Nat) : ∀ s : State, s.ticks + n ≤ 19 →
    (ticksElapse n s).ticks = s.ticks + n ∧
    (ticksElapse n s).seconds = s.seconds ∧ (ticksElapse n s).minutes = s.minutes ∧
    (ticksElapse n s).hours = s.hours := by
  induction n with
  | zero => intro s _; exact ⟨rfl, rfl, rfl, rfl⟩
  | succ k ih =>
    intro s h
    have h1 : (s.ticks + 1) % 256 = s.ticks + 1 := Nat.mod_eq_of_lt (by omega)
    obtain ⟨q1, q2, q3, q4⟩ := timer0_isr_quiet s (by omega)
    obtain ⟨i1, i2, i3, i4⟩ := ih (timer0_isr s) (by omega)
    simp only [ticksElapse]
    rw [i1, i2, i3, i4, q1, q2, q3, q4, h1]
    exact ⟨by omega, rfl, rfl, rfl⟩

/-- C23 (as stated, refuted): at 255:59:59 the 20th tick wraps the 8-bit
hours counter and the uptime value falls from 921599 to 0. -/
theorem C23_uptime_wraps_after_256_hours :
    ({ powerOn 255 255 255 255 with
        hours := 255, minutes := 59, seconds := 59, ticks := 19 } : State).seconds < 60 ∧
    ({ powerOn 255 255 255 255 with
        hours := 255, minutes := 59, seconds := 59, ticks := 19 } : State).minutes < 60 ∧
    uptime { powerOn 255 255 255 255 with
        hours := 255, minutes := 59, seconds := 59, ticks := 19 } = 921599 ∧
    uptime (timer0_isr { powerOn 255 255 255 255 with
        hours := 255, minutes := 59, seconds := 59, ticks := 19 }) = 0 := by
  decide

/-- C23 (amended): for every clock state with seconds < 60, minutes < 60 and
an 8-bit hours counter that is not at 255:59:59, one tick of the timer
handler never decreases the uptime value hours*3600 + minutes*60 + seconds
and keeps seconds < 60 and minutes < 60; the tick that is the 20th adds
exactly one second and every other tick adds none, so that from a tick
counter below 20 any 20 ticks in a row add exactly one second. -/
theorem C23_uptime_monotone (s : State) (hs : s.seconds < 60) (hm : s.minutes < 60)
    (hh : s.hours ≤ 255)
    (hlast : ¬ (s.hours = 255 ∧ s.minutes = 59 ∧ s.seconds = 59)) :
    uptime s ≤ uptime (timer0_isr s) ∧
    (timer0_isr s).seconds < 60 ∧ (timer0_isr s).minutes < 60 ∧
    ((s.ticks + 1) % 256 = 20 → uptime (timer0_isr s) = uptime s + 1) ∧
    ((s.ticks + 1) % 256 ≠ 20 → uptime (timer0_isr s) = uptime s) ∧
    (s.ticks < 20 → uptime (ticksElapse 20 s) = uptime s + 1) := by
  have hq : (s.ticks + 1) % 256 ≠ 20 → uptime (timer0_isr s) = uptime s ∧
      (timer0_isr s).seconds < 60 ∧ (timer0_isr s).minutes < 60 := by
    intro ht
    obtain ⟨_, q2, q3, q4⟩ := timer0_isr_quiet s ht
    unfold uptime
    rw [q2, q3, q4]
    exact ⟨rfl, hs, hm⟩
  refine ⟨?_, ?_, ?_, ?_, ?_, ?_⟩
  · by_cases ht : (s.ticks + 1) % 256 = 20
    · rw [(timer0_isr_second s ht hs hm hh hlast).2.2.2.2]
      omega
    · rw [(hq ht).1]
  · by_cases ht : (s.ticks + 1) % 256 = 20
    · exact (timer0_isr_second s ht hs hm hh hlast).2.1
    · exact (hq ht).2.1
  · by_cases ht : (s.ticks + 1) % 256 = 20
    · exact (timer0_isr_second s ht hs hm hh hlast).2.2.1
    · exact (hq ht).2.2
  · intro ht
    exact (timer0_isr_second s ht hs hm hh hlast).2.2.2.2
  · intro ht
    exact (hq ht).1
  · intro ht
    have hsplit : 20 = (19 - s.ticks) + (s.ticks + 1) := by omega
    obtain ⟨a1, a2, a3, a4⟩ := ticksElapse_quiet (19 - s.ticks) s (by omega)
    have a19 : ((ticksElapse (19 - s.ticks) s).ticks + 1) % 256 = 20 := by
      rw [a1]
      have : s.ticks + (19 - s.ticks) + 1 = 20 := by omega
      rw [this]
    obtain ⟨b1, _, _, _, b5⟩ := timer0_isr_second (ticksElapse (19 - s.ticks) s) a19
      (by rw [a2]; exact hs) (by rw [a3]; exact hm) (by rw [a4]; exact hh)
      (by rw [a2, a3, a4]; exact hlast)
    obtain ⟨_, c2, c3, c4⟩ := ticksElapse_quiet s.ticks
      (timer0_isr (ticksElapse (19 - s.ticks) s)) (by rw [b1]; omega)
    rw [hsplit, ticksElapse_add]
    simp only [ticksElapse]
    have hu : uptime (ticksElapse s.ticks (timer0_isr (ticksElapse (19 - s.ticks) s)))
        = uptime (timer0_isr (ticksElapse (19 - s.ticks) s)) := by
      unfold uptime
      rw [c2, c3, c4]
    have ha : uptime (ticksElapse (19 - s.ticks) s) = uptime s := by
      unfold uptime
      rw [a2, a3, a4]
    rw [hu, b5, ha]

/-- C23 witness: at 0:59:59 with 19 ticks counted, the next tick carries into
the hour. -/
theorem C23_uptime_monotone_witness :
    uptime (timer0_isr { powerOn 255 255 255 255 with
      minutes := 59, seconds := 59, ticks := 19 }) = 3600 :=
  ((C23_uptime_monotone { powerOn 255 255 255 255 with
      minutes := 59, seconds := 59, ticks := 19 }
    (by decide) (by decide) (by decide) (by decide)).2.2.2.1 (by decide)).trans (by decide)

/-! ## C22: when the handshake detector is armed -/

/-- Nothing empty ends with 0x121. -/
theorem not_endsWith121_nil : ¬ EndsWith121 [] := by
  rintro ⟨p, hp⟩
  have := congrArg List.length hp
  simp at this

/-- Dropping the first word keeps a list from ending with 0x121. -/
theorem not_endsWith121_tail (a : Nat) (pre : List Nat) (h : ¬ EndsWith121 (a :: pre)) :
    ¬ EndsWith121 pre := by
  rintro ⟨p, hp⟩
  exact h ⟨a :: p, by rw [hp]; rfl⟩

/-- Putting a word in front keeps a non-empty list from ending with 0x121;
in front of an empty list the word itself must not be 0x121. -/
theorem not_endsWith121_cons (a : Nat) (pre : List Nat) (h : ¬ EndsWith121 pre)
    (ha : pre = [] → a ≠ 0x121) : ¬ EndsWith121 (a :: pre) := by
  rintro ⟨p, hp⟩
  cases p with
  | nil =>
    simp only [List.nil_append, List.cons.injEq] at hp
    exact ha hp.2 hp.1
  | cons x p2 =>
    simp only [List.cons_append, List.cons.injEq] at hp
    exact h ⟨p2, hp.2⟩

/-- An arming stream has at least two words. -/
theorem armingStream_two_le {ws : List Nat} (h : ArmingStream ws) : 2 ≤ ws.length := by
  obtain ⟨pre, k, post, _, rfl⟩ := h
  simp only [List.length_append, List.length_replicate, List.length_cons]
  omega

/-- A word other than 0x121 in front does not matter. -/
theorem armingStream_cons_other (w : Nat) (t : List Nat) (hw : w ≠ 0x121) :
    ArmingStream (w :: t) ↔ ArmingStream t := by
  constructor
  · rintro ⟨pre, k, post, hpre, heq⟩
    cases pre with
    | nil =>
      simp only [List.nil_append, List.replicate_succ, List.cons_append,
        List.cons.injEq] at heq
      exact absurd heq.1 hw
    | cons a pre2 =>
      simp only [List.cons_append, List.cons.injEq] at heq
      exact ⟨pre2, k, post, not_endsWith121_tail a pre2 hpre, heq.2⟩
  · rintro ⟨pre, k, post, hpre, heq⟩
    exact ⟨w :: pre, k, post, not_endsWith121_cons w pre hpre (fun _ => hw), by
      rw [heq]; rfl⟩

/-- Two 0x121 words in front do not matter. -/
theorem armingStream_cons_pair (t : List Nat) :
    ArmingStream (0x121 :: 0x121 :: t) ↔ ArmingStream t := by
  constructor
  · rintro ⟨pre, k, post, hpre, heq⟩
    cases pre with
    | nil =>
      cases k with
      | zero =>
        simp only [Nat.mul_zero, Nat.zero_add, List.replicate_one, List.nil_append,
          List.singleton_append, List.cons.injEq] at heq
        exact absurd heq.2.1 (by decide)
      | succ k2 =>
        have hk : 2 * (k2 + 1) + 1 = (2 * k2 + 1) + 1 + 1 := by omega
        rw [hk] at heq
        simp only [List.nil_append, List.replicate_succ, List.cons_append,
          List.cons.injEq, true_and] at heq
        exact ⟨[], k2, post, not_endsWith121_nil, by
          rw [heq]
          simp only [List.nil_append, List.replicate_succ, List.cons_append]⟩
    | cons a pre2 =>
      cases pre2 with
      | nil =>
        simp only [List.cons_append, List.nil_append, List.cons.injEq] at heq
        exact absurd ⟨[], by rw [← heq.1]; rfl⟩ hpre
      | cons b pre3 =>
        simp only [List.cons_append, List.cons.injEq] at heq
        exact ⟨pre3, k, post,
          not_endsWith121_tail b pre3 (not_endsWith121_tail a (b :: pre3) hpre), heq.2.2⟩
  · rintro ⟨pre, k, post, hpre, heq⟩
    cases pre with
    | nil =>
      refine ⟨[], k + 1, post, not_endsWith121_nil, ?_⟩
      have hk : 2 * (k + 1) + 1 = (2 * k + 1) + 1 + 1 := by omega
      rw [heq, hk]
      simp only [List.nil_append, List.replicate_succ, List.cons_append]
    | cons a pre2 =>
      refine ⟨0x121 :: 0x121 :: a :: pre2, k, post, ?_, by rw [heq]; rfl⟩
      exact not_endsWith121_cons _ _
        (not_endsWith121_cons _ _ hpre (fun h => by cases h)) (fun h => by cases h)

/-- A 0x121 followed by a word that is neither 0x121 nor 0x001 does not
matter. -/
theorem armingStream_cons_miss (w : Nat) (t : List Nat) (h1 : w ≠ 0x121) (h2 : w ≠ 0x001) :
    ArmingStream (0x121 :: w :: t) ↔ ArmingStream t := by
  constructor
  · rintro ⟨pre, k, post, hpre, heq⟩
    cases pre with
    | nil =>
      cases k with
      | zero =>
        simp only [Nat.mul_zero, Nat.zero_add, List.replicate_one, List.nil_append,
          List.singleton_append, List.cons.injEq] at heq
        exact absurd heq.2.1 h2
      | succ k2 =>
        have hk : 2 * (k2 + 1) + 1 = (2 * k2 + 1) + 1 + 1 := by omega
        rw [hk] at heq
        simp only [List.nil_append, List.replicate_succ, List.cons_append,
          List.cons.injEq, true_and] at heq
        exact absurd heq.1 h1
    | cons a pre2 =>
      cases pre2 with
      | nil =>
        simp only [List.cons_append, List.nil_append, List.cons.injEq] at heq
        exact absurd ⟨[], by rw [← heq.1]; rfl⟩ hpre
      | cons b pre3 =>
        simp only [List.cons_append, List.cons.injEq] at heq
        exact ⟨pre3, k, post,
          not_endsWith121_tail b pre3 (not_endsWith121_tail a (b :: pre3) hpre), heq.2.2⟩
  · rintro ⟨pre, k, post, hpre, heq⟩
    refine ⟨0x121 :: w :: pre, k, post, ?_, by rw [heq]; rfl⟩
    exact not_endsWith121_cons _ _ (not_endsWith121_cons _ _ hpre (fun _ => h1))
      (fun h => by cases h)

/-- The detector from state 0 is armed by exactly the arming streams. -/
theorem matcher_armed_iff (n : Nat) : ∀ ws : List Nat, ws.length ≤ n →
    (ws.foldl matchPreamble 0 = 2 ↔ ArmingStream ws) := by
  induction n with
  | zero =>
    intro ws hl
    have hnil : ws = [] := List.length_eq_zero.mp (by omega)
    subst hnil
    constructor
    · intro h
      exact absurd h (by decide)
    · intro h
      have := armingStream_two_le h
      simp at this
  | succ m ih =>
    intro ws hl
    cases ws with
    | nil =>
      constructor
      · intro h
        exact absurd h (by decide)
      · intro h
        have := armingStream_two_le h
        simp at this
    | cons w t =>
      simp only [List.length_cons] at hl
      by_cases hw : w = 0x121
      · subst hw
        cases t with
        | nil =>
          constructor
          · intro h
            exact absurd h (by decide)
          · intro h
            have := armingStream_two_le h
            simp at this
        | cons w2 t2 =>
          simp only [List.length_cons] at hl
          by_cases h1 : w2 = 0x001
          · subst h1
            constructor
            · intro _
              exact ⟨[], 0, t2, not_endsWith121_nil, rfl⟩
            · intro _
              exact foldl_matchPreamble_preamble [] t2 (List.not_mem_nil _)
          · have hstep : (0x121 :: w2 :: t2).foldl matchPreamble 0
                = t2.foldl matchPreamble 0 := by
              simp only [List.foldl_cons]
              have e1 : matchPreamble 0 0x121 = 1 := by decide
              have e2 : matchPreamble 1 w2 = 0 := by
                unfold matchPreamble
                rw [if_neg (by decide), if_pos rfl, if_neg h1]
              rw [e1, e2]
            rw [hstep, ih t2 (by omega)]
            by_cases h2 : w2 = 0x121
            · subst h2
              exact (armingStream_cons_pair t2).symm
            · exact (armingStream_cons_miss w2 t2 h2 h1).symm
      · have hstep : (w :: t).foldl matchPreamble 0 = t.foldl matchPreamble 0 := by
          simp only [List.foldl_cons]
          rw [(matchPreamble_facts 0 w).2.2 rfl hw]
        rw [hstep, ih t (by omega)]
        exact (armingStream_cons_other w t hw).symm

/-- C22 (as stated, refuted): the stream 0x121, 0x121, 0x001 holds 0x121
immediately followed by 0x001, yet the detector ends in state 0: the second
0x121 arrives in state 1, is not 0x001, and resets the detector. -/
theorem C22_repeated_0x121_does_not_arm :
    HasPreamble [0x121, 0x121, 0x001] ∧
    (startupFB ⟨powerOn 255 255 255 255, 0, 0⟩
      [(0, 0x121), (0, 0x121), (0, 0x001)]).1.state = 0 ∧
    (startupFB ⟨powerOn 255 255 255 255, 0, 0⟩
      [(0, 0x121), (0, 0x121), (0, 0x001)]).1.state ≠ 2 :=
  ⟨⟨[0x121], [], rfl⟩, by decide, by decide⟩

/-- C22 (amended): for every stream of Function Board words read by the
startup loop from detector state 0, the detector is armed (state 2) after the
stream if and only if the stream holds a run of an odd number of 0x121 words,
not preceded by a further 0x121, immediately followed by 0x001; so an armed
detector has seen 0x121 immediately followed by 0x001, and a stream whose
first 0x121 is immediately followed by 0x001 arms it; once armed, no later
Function Board word disarms it. -/
theorem C22_armed_iff_odd_run_then_confirm (h : Startup) (tws more : List (Nat × Nat))
    (h0 : h.state = 0) :
    ((startupFB h tws).1.state = 2 ↔ ArmingStream (wordsOf tws)) ∧
    ((startupFB h tws).1.state = 2 → HasPreamble (wordsOf tws)) ∧
    (∀ pre post : List Nat, 0x121 ∉ pre → wordsOf tws = pre ++ 0x121 :: 0x001 :: post →
      (startupFB h tws).1.state = 2) ∧
    ((startupFB h tws).1.state = 2 → (startupFB h (tws ++ more)).1.state = 2) ∧
    ((startupFB h tws).1.state = 2 → (startupFB (startupFB h tws).1 more).1.state = 2) := by
  have hst : ∀ l : List (Nat × Nat),
      (startupFB h l).1.state = (wordsOf l).foldl matchPreamble 0 := by
    intro l
    rw [startupFB_spec, h0]
  have hiff : (startupFB h tws).1.state = 2 ↔ ArmingStream (wordsOf tws) := by
    rw [hst]
    exact matcher_armed_iff (wordsOf tws).length (wordsOf tws) (Nat.le_refl _)
  refine ⟨hiff, ?_, ?_, ?_, ?_⟩
  · intro ha
    obtain ⟨pre, k, post, _, heq⟩ := hiff.mp ha
    refine ⟨pre ++ List.replicate (2 * k) 0x121, post, ?_⟩
    rw [heq, List.replicate_succ']
    simp only [List.append_assoc, List.singleton_append]
  · intro pre post hpre heq
    rw [hst, heq]
    exact foldl_matchPreamble_preamble pre post hpre
  · intro ha
    rw [hst] at ha ⊢
    have hw : wordsOf (tws ++ more) = wordsOf tws ++ wordsOf more := by
      simp only [wordsOf, List.map_append]
    rw [hw, List.foldl_append, ha]
    exact foldl_matchPreamble_armed _ 2 (Nat.le_refl 2)
  · intro ha
    rw [startupFB_spec, ha]
    exact foldl_matchPreamble_armed _ 2 (Nat.le_refl 2)

/-- C22 witness: the stream 0x005, 0x121, 0x001, 0x121 arms the detector. -/
theorem C22_armed_iff_odd_run_then_confirm_witness :
    (startupFB ⟨powerOn 255 255 255 255, 0, 0⟩
      [(0, 0x005), (0, 0x121), (0, 0x001), (0, 0x121)]).1.state = 2 :=
  (C22_armed_iff_odd_run_then_confirm ⟨powerOn 255 255 255 255, 0, 0⟩
    [(0, 0x005), (0, 0x121), (0, 0x001), (0, 0x121)] [] rfl).2.2.1
    [0x005] [0x121] (by decide) rfl

/-! ## The startup wait: passes without a capture -/

/-- The startup Function Board loop relays every word read, in order. -/
theorem startupFB_events (ws : List (Nat × Nat)) : ∀ h : Startup,
    (startupFB h ws).2 = (wordsOf ws).map Event.uart4_send := by
  induction ws with
  | nil => intro h; rfl
  | cons w t ih =>
    intro h
    obtain ⟨n, x⟩ := w
    simp only [startupFB, wordsOf, List.map_cons] at ih ⊢
    rw [ih]

/-- Relayed words are neither console bytes nor print wheel requests. -/
theorem relay_silent (ws : List Nat) :
    consoleOf (ws.map Event.uart4_send) = [] ∧ wheelOf (ws.map Event.uart4_send) = [] ∧
    consoleOf (ws.map Event.uart3_send) = [] ∧ wheelOf (ws.map Event.uart3_send) = [] := by
  induction ws with
  | nil => exact ⟨rfl, rfl, rfl, rfl⟩
  | cons w t ih =>
    obtain ⟨i1, i2, i3, i4⟩ := ih
    simp [consoleOf, wheelOf, i1, i2, i3, i4]

/-- One pass of the startup wait writes nothing to the console and requests
no print wheel. -/
theorem startupPass_silent (h : Startup) (q : Pass) :
    consoleOf (startupPass h q).2 = [] ∧ wheelOf (startupPass h q).2 = [] := by
  obtain ⟨a1, a2, _, _⟩ := relay_silent (wordsOf q.fb)
  obtain ⟨_, _, b3, b4⟩ := relay_silent (wordsOf q.pb)
  have hev : (startupPass h q).2 =
      (wordsOf q.fb).map Event.uart4_send ++ (wordsOf q.pb).map Event.uart3_send := by
    simp only [startupPass, startupFB_events, startupPB_events]
  rw [hev, consoleOf_append, wheelOf_append, a1, a2, b3, b4]
  exact ⟨rfl, rfl⟩

/-- The startup wait writes nothing to the console and requests no print
wheel. -/
theorem startupWait_silent (passes : List Pass) : ∀ (h : Startup)
    (r : Startup × List Event), startupWait h passes = some r →
    consoleOf r.2 = [] ∧ wheelOf r.2 = [] := by
  induction passes with
  | nil =>
    intro h r hr
    simp only [startupWait] at hr
    split_ifs at hr
    cases hr
    exact ⟨rfl, rfl⟩
  | cons q qs ih =>
    intro h r hr
    simp only [startupWait] at hr
    split_ifs at hr
    · cases hr
      exact ⟨rfl, rfl⟩
    · cases hw : startupWait (startupPass h q).1 qs with
      | none => rw [hw] at hr; cases hr
      | some r2 =>
        rw [hw] at hr
        cases hr
        obtain ⟨i1, i2⟩ := ih _ r2 hw
        obtain ⟨p1, p2⟩ := startupPass_silent h q
        refine ⟨?_, ?_⟩
        · show consoleOf ((startupPass h q).2 ++ r2.2) = []
          rw [consoleOf_append, p1, i1]
          rfl
        · show wheelOf ((startupPass h q).2 ++ r2.2) = []
          rw [wheelOf_append, p2, i2]
          rfl

/-- While `timeout` is non-zero the startup wait runs the next pass and goes
on from its result. -/
theorem startupWait_cons_running (h : Startup) (q : Pass) (qs : List Pass)
    (ht : h.s.timeout ≠ 0) :
    startupWait h (q :: qs) =
      (startupWait (startupPass h q).1 qs).map
        (fun r => (r.1, (startupPass h q).2 ++ r.2)) := by
  simp only [startupWait, if_neg ht]
  cases startupWait (startupPass h q).1 qs <;> rfl

/-- Passes through which the detector is not armed capture nothing. -/
theorem quietFrom_of_unarmed (A : List Pass) : ∀ st : Nat,
    (fbWords A).foldl matchPreamble st ≠ 2 → QuietFrom st A := by
  induction A with
  | nil => intro st _; exact True.intro
  | cons q qs ih =>
    intro st h
    simp only [fbWords, List.foldl_append] at h
    have h1 : (wordsOf q.fb).foldl matchPreamble st ≠ 2 := by
      intro h2
      rw [h2, foldl_matchPreamble_armed _ 2 (Nat.le_refl 2)] at h
      exact h rfl
    exact ⟨Or.inl h1, ih _ h⟩

/-- Passes that read no Printer Board word capture nothing. -/
theorem quietFrom_of_no_replies (Q : List Pass) : ∀ st : Nat,
    (∀ a : Pass, a ∈ Q → a.pb = []) → QuietFrom st Q := by
  induction Q with
  | nil => intro st _; exact True.intro
  | cons q qs ih =>
    intro st h
    exact ⟨Or.inr (h q (List.mem_cons_self _ _)),
      ih _ (fun a ha => h a (List.mem_cons_of_mem _ ha))⟩

/-- Once the pitch is captured nothing more is. -/
theorem quietFrom_captured (B : List Pass) : QuietFrom 3 B := by
  induction B with
  | nil => exact True.intro
  | cons q qs ih =>
    have h3 : (wordsOf q.fb).foldl matchPreamble 3 = 3 :=
      foldl_matchPreamble_armed _ 3 (by decide)
    refine ⟨Or.inl (by rw [h3]; decide), ?_⟩
    rw [h3]
    exact ih

/-- Two runs of passes without a capture, one after the other. -/
theorem quietFrom_append (A : List Pass) : ∀ (st : Nat) (Q : List Pass),
    QuietFrom st A → QuietFrom ((fbWords A).foldl matchPreamble st) Q →
    QuietFrom st (A ++ Q) := by
  induction A with
  | nil => intro st Q _ h; exact h
  | cons q qs ih =>
    intro st Q hA hQ
    simp only [fbWords, List.foldl_append] at hQ
    exact ⟨hA.1, ih _ Q hA.2 hQ⟩

/-- The startup wait through passes without a capture, entered with more
`timeout` than timer interrupts fire: the detector follows the Function Board
words, the pitch is untouched, `timeout` falls by the interrupts, and the
wait goes on with the passes that follow. -/
theorem startupWait_quiet_prefix (P : List Pass) : ∀ h : Startup,
    QuietFrom h.state P → passTicks P < h.s.timeout →
    ∃ (h2 : Startup) (ev : List Event),
      h2.state = (fbWords P).foldl matchPreamble h.state ∧ h2.pitch = h.pitch ∧
      h2.s.timeout = h.s.timeout - passTicks P ∧
      ∀ rest : List Pass, startupWait h (P ++ rest) =
        (startupWait h2 rest).map (fun r => (r.1, ev ++ r.2)) := by
  induction P with
  | nil =>
    intro h _ _
    refine ⟨h, [], rfl, rfl, rfl, ?_⟩
    intro rest
    show startupWait h rest = _
    cases startupWait h rest <;> rfl
  | cons q P2 ih =>
    intro h hq ht
    simp only [passTicks] at ht
    have hp := startupPass_quiet h q hq.1
    have hto : (startupPass h q).1.s.timeout
        = h.s.timeout - (ticksOf q.fb + ticksOf q.pb + q.idle) := by
      rw [hp]
      exact (ticksElapse_frame _ _).1
    have hst : (startupPass h q).1.state = (wordsOf q.fb).foldl matchPreamble h.state := by
      rw [hp]
    obtain ⟨h2, ev, g1, g2, g3, g4⟩ := ih (startupPass h q).1
      (by rw [hst]; exact hq.2) (by rw [hto]; omega)
    refine ⟨h2, (startupPass h q).2 ++ ev, ?_, ?_, ?_, ?_⟩
    · rw [g1, hst]
      simp only [fbWords, List.foldl_append]
    · rw [g2, hp]
    · rw [g3, hto]
      simp only [passTicks]
      omega
    · intro rest
      show startupWait h (q :: (P2 ++ rest)) = _
      rw [startupWait_cons_running h q (P2 ++ rest) (by omega), g4 rest]
      cases startupWait h2 rest with
      | none => rfl
      | some r => simp only [Option.map_some', List.append_assoc]

/-- The startup wait over passes without a capture returns in a state other
than 3 and with the pitch untouched. -/
theorem startupWait_quiet_no_capture (P : List Pass) : ∀ (h : Startup)
    (r : Startup × List Event), QuietFrom h.state P → h.state ≠ 3 →
    startupWait h P = some r → r.1.state ≠ 3 ∧ r.1.pitch = h.pitch := by
  induction P with
  | nil =>
    intro h r _ h3 hr
    simp only [startupWait] at hr
    split_ifs at hr
    cases hr
    exact ⟨h3, rfl⟩
  | cons q P2 ih =>
    intro h r hq h3 hr
    simp only [startupWait] at hr
    split_ifs at hr
    · cases hr
      exact ⟨h3, rfl⟩
    · have hp := startupPass_quiet h q hq.1
      cases hw : startupWait (startupPass h q).1 P2 with
      | none => rw [hw] at hr; cases hr
      | some r2 =>
        rw [hw] at hr
        cases hr
        have hst : (startupPass h q).1.state
            = (wordsOf q.fb).foldl matchPreamble h.state := by rw [hp]
        obtain ⟨k1, k2⟩ := ih (startupPass h q).1 r2 (by rw [hst]; exact hq.2)
          (by rw [hst]; exact foldl_matchPreamble_ne3 _ _ h3) hw
        exact ⟨k1, by rw [k2, hp]⟩

/-- The startup wait over passes without a capture returns once as many timer
interrupts fire as `timeout` holds. -/
theorem startupWait_quiet_returns (P : List Pass) : ∀ h : Startup,
    QuietFrom h.state P → h.s.timeout ≤ passTicks P →
    ∃ r : Startup × List Event, startupWait h P = some r := by
  induction P with
  | nil =>
    intro h _ ht
    simp only [passTicks] at ht
    exact ⟨(h, []), by simp [startupWait]; omega⟩
  | cons q P2 ih =>
    intro h hq ht
    simp only [passTicks] at ht
    by_cases h0 : h.s.timeout = 0
    · exact ⟨(h, []), by simp [startupWait, h0]⟩
    · have hp := startupPass_quiet h q hq.1
      have hto : (startupPass h q).1.s.timeout
          = h.s.timeout - (ticksOf q.fb + ticksOf q.pb + q.idle) := by
        rw [hp]
        exact (ticksElapse_frame _ _).1
      have hst : (startupPass h q).1.state
          = (wordsOf q.fb).foldl matchPreamble h.state := by rw [hp]
      obtain ⟨r2, hr2⟩ := ih (startupPass h q).1 (by rw [hst]; exact hq.2)
        (by rw [hto]; omega)
      exact ⟨(r2.1, (startupPass h q).2 ++ r2.2), by
        rw [startupWait_cons_running h q P2 h0, hr2]
        rfl⟩

/-- An arming stream holds 0x121 immediately followed by 0x001. -/
theorem armingStream_hasPreamble (ws : List Nat) (h : ArmingStream ws) : HasPreamble ws := by
  obtain ⟨pre, k, post, _, heq⟩ := h
  refine ⟨pre ++ List.replicate (2 * k) 0x121, post, ?_⟩
  rw [heq, List.replicate_succ']
  simp only [List.append_assoc, List.singleton_append]

/-- A print wheel request followed by a message: the request is the only one
and the console receives the characters of the message, in order. -/
theorem announce_split (n : Nat) (cs : List Char) (ev : List Event)
    (h1 : consoleOf ev = []) (h2 : wheelOf ev = []) :
    consoleOf (ev ++ (Event.ww_set_printwheel n :: putstr cs)) = cs.map Char.toNat ∧
    wheelOf (ev ++ (Event.ww_set_printwheel n :: putstr cs)) = [n] := by
  have hc : consoleOf (Event.ww_set_printwheel n :: putstr cs) = consoleOf (putstr cs) := rfl
  have hw : wheelOf (Event.ww_set_printwheel n :: putstr cs) = n :: wheelOf (putstr cs) := rfl
  rw [consoleOf_append, wheelOf_append, h1, h2, hc, hw]
  unfold putstr
  rw [consoleOf_map_putchar2, wheelOf_map_putchar2]
  exact ⟨rfl, rfl⟩

/-! ## C13: the pitch found by the handshake -/

/-- C13: let the Function Board stream of the startup wait be 0x121
immediately followed by 0x001, after words none of which is 0x121 and before
any words at all; let w be the first Printer Board word read once the 0x001
is read (the passes A read the stream no further than the 0x121, with any
Printer Board words; the passes Q read no Printer Board word; the pass qL
reads w first); let fewer timer interrupts than the startup timeout fire
before that pass and at least one after the capture.  Then startup returns,
and the low byte of w decides the selection: 0x010 requests the 15-cpi wheel
with tabStop 7, 0x020 the 12-cpi wheel with tabStop 6, 0x040 the 10-cpi wheel
with tabStop 5, each as the only request, with its message on the console. -/
theorem C13_handshake_selects_pitch (s : State) (A Q B : List Pass) (qL : Pass)
    (pre post restA : List Nat) (n w : Nat) (more : List (Nat × Nat))
    (hpre : 0x121 ∉ pre)
    (hfb : fbWords (A ++ Q ++ [qL]) = pre ++ 0x121 :: 0x001 :: post)
    (hA : fbWords A ++ restA = pre ++ [0x121])
    (hQ : ∀ a : Pass, a ∈ Q → a.pb = [])
    (hpb : qL.pb = (n, w) :: more)
    (hrun : passTicks (A ++ Q) < 7 * ONESEC)
    (hend : 1 ≤ ticksOf more + qL.idle + passTicks B) :
    ∃ r : State × List Event, startup s (A ++ Q ++ qL :: B) = some r ∧
      (w % 256 = 0x010 → r.1.tabStop = 7 ∧ wheelOf r.2 = [FIFTEENCPI] ∧
        consoleOf r.2 = "15P printwheel\n".toList.map Char.toNat) ∧
      (w % 256 = 0x020 → r.1.tabStop = 6 ∧ wheelOf r.2 = [TWELVECPI] ∧
        consoleOf r.2 = "12P printwheel\n".toList.map Char.toNat) ∧
      (w % 256 = 0x040 → r.1.tabStop = 5 ∧ wheelOf r.2 = [TENCPI] ∧
        consoleOf r.2 = "10P printwheel\n".toList.map Char.toNat) := by
  have hun : (fbWords A).foldl matchPreamble 0 ≠ 2 := by
    intro h2
    have h3 : (fbWords A ++ restA).foldl matchPreamble 0 = 2 := by
      rw [List.foldl_append, h2]
      exact foldl_matchPreamble_armed _ 2 (Nat.le_refl 2)
    rw [hA, List.foldl_append, foldl_matchPreamble_idle pre hpre] at h3
    exact absurd h3 (by decide)
  have hquiet : QuietFrom 0 (A ++ Q) :=
    quietFrom_append A 0 Q (quietFrom_of_unarmed A 0 hun) (quietFrom_of_no_replies Q _ hQ)
  obtain ⟨h2, ev, g1, g2, g3, g4⟩ := startupWait_quiet_prefix (A ++ Q)
    { s := { s with timeout := 7 * ONESEC }, pitch := 0, state := 0 } hquiet hrun
  have g3b : h2.s.timeout = 7 * ONESEC - passTicks (A ++ Q) := g3
  have g1b : h2.state = (fbWords (A ++ Q)).foldl matchPreamble 0 := g1
  have harm : (startupFB h2 qL.fb).1.state = 2 := by
    rw [startupFB_spec]
    show (wordsOf qL.fb).foldl matchPreamble h2.state = 2
    rw [g1b, ← List.foldl_append, ← fbWords_snoc, hfb]
    exact foldl_matchPreamble_preamble pre post hpre
  have hcap : (startupPass h2 qL).1 =
      { s := ticksElapse qL.idle
          (ticksElapse (ticksOf more)
            { ticksElapse n (startupFB h2 qL.fb).1.s with timeout := 1 }),
        pitch := w % 256, state := 3 } := by
    simp only [startupPass, hpb]
    rw [startupPB_capture n w more _ harm]
  have hto : (startupPass h2 qL).1.s.timeout ≤ passTicks B := by
    rw [hcap]
    simp only [(ticksElapse_frame _ _).1]
    omega
  obtain ⟨r3, hr3⟩ := startupWait_quiet_returns B (startupPass h2 qL).1
    (by rw [hcap]; exact quietFrom_captured B) hto
  have hkeep := startupWait_preserves (fun h => h.state = 3 ∧ h.pitch = w % 256) B
    (fun q _ h hi => by
      obtain ⟨k1, k2⟩ := (startupPass_frame h q).2.1 hi.1
      exact ⟨k1, k2.trans hi.2⟩)
    (startupPass h2 qL).1 r3 (by rw [hcap]; exact ⟨rfl, rfl⟩) hr3
  have hw : startupWait { s := { s with timeout := 7 * ONESEC }, pitch := 0, state := 0 }
      (A ++ Q ++ qL :: B) = some (r3.1, ev ++ ((startupPass h2 qL).2 ++ r3.2)) := by
    rw [g4 (qL :: B), startupWait_cons_running h2 qL B (by omega), hr3]
    rfl
  obtain ⟨s1, s2⟩ := startupWait_silent _ _ _ hw
  have hst : startup s (A ++ Q ++ qL :: B) =
      some ((selectPitch r3.1.s (w % 256)).1,
        (ev ++ ((startupPass h2 qL).2 ++ r3.2)) ++ (selectPitch r3.1.s (w % 256)).2) := by
    unfold startup
    rw [hw]
    simp only [hkeep.2]
  refine ⟨_, hst, ?_, ?_, ?_⟩
  · intro hc
    rw [hc, (selectPitch_known r3.1.s).1]
    obtain ⟨c1, c2⟩ := announce_split FIFTEENCPI "15P printwheel\n".toList _ s1 s2
    exact ⟨rfl, c2, c1⟩
  · intro hc
    rw [hc, (selectPitch_known r3.1.s).2.1]
    obtain ⟨c1, c2⟩ := announce_split TWELVECPI "12P printwheel\n".toList _ s1 s2
    exact ⟨rfl, c2, c1⟩
  · intro hc
    rw [hc, (selectPitch_known r3.1.s).2.2.1]
    obtain ⟨c1, c2⟩ := announce_split TENCPI "10P printwheel\n".toList _ s1 s2
    exact ⟨rfl, c2, c1⟩

/-- C13 witness: a first pass reads 0x121 from the Function Board and 0x009
from the Printer Board, a second pass reads 0x001 and then 0x010, and one
timer interrupt ends the wait: the 15-cpi wheel is selected. -/
theorem C13_handshake_selects_pitch_witness :
    ∃ r : State × List Event,
      startup (powerOn 255 255 255 255)
        [⟨[(0, 0x121)], [(0, 0x009)], 0⟩, ⟨[(0, 0x001)], [(0, 0x010)], 1⟩] = some r ∧
      r.1.tabStop = 7 ∧ wheelOf r.2 = [FIFTEENCPI] ∧
      consoleOf r.2 = "15P printwheel\n".toList.map Char.toNat :=
  (C13_handshake_selects_pitch (powerOn 255 255 255 255)
    [⟨[(0, 0x121)], [(0, 0x009)], 0⟩] [] [] ⟨[(0, 0x001)], [(0, 0x010)], 1⟩
    [] [] [] 0 0x010 [] (by decide) (by decide) (by decide) (by decide) (by decide)
    (by decide) (by decide)).imp (fun _ h => ⟨h.1, h.2.1 (by decide)⟩)

/-! ## C14: no capture -/

/-- C14: whenever the startup wait returns with nothing captured (its state is
not 3), the pitch is still 0 and startup requests the 12-cpi print wheel, as
its only request, sets tabStop to 6 and writes "Unable to determine
printwheel. Defaulting to 12P." and a newline to the console, and nothing
else.  Nothing is captured over passes without a capture; such passes end the
wait once as many timer interrupts fire as the startup timeout holds; and
passes are without a capture when the detector is not armed by the Function
Board words of the earlier ones and the later ones read no Printer Board
word, in particular when the Function Board stream holds no 0x121 immediately
followed by 0x001. -/
theorem C14_no_capture_defaults (s : State) (passes : List Pass) :
    (∀ r0 : Startup × List Event,
      startupWait { s := { s with timeout := 7 * ONESEC }, pitch := 0, state := 0 } passes
        = some r0 →
      r0.1.state ≠ 3 →
      r0.1.pitch = 0 ∧
      startup s passes = some ({ r0.1.s with tabStop := 6 },
        r0.2 ++ Event.ww_set_printwheel TWELVECPI ::
          "Unable to determine printwheel. Defaulting to 12P.\n".toList.map
            (fun ch => Event.putchar2 ch.toNat)) ∧
      wheelOf (r0.2 ++ Event.ww_set_printwheel TWELVECPI ::
          "Unable to determine printwheel. Defaulting to 12P.\n".toList.map
            (fun ch => Event.putchar2 ch.toNat)) = [TWELVECPI] ∧
      consoleOf (r0.2 ++ Event.ww_set_printwheel TWELVECPI ::
          "Unable to determine printwheel. Defaulting to 12P.\n".toList.map
            (fun ch => Event.putchar2 ch.toNat)) =
        "Unable to determine printwheel. Defaulting to 12P.\n".toList.map Char.toNat) ∧
    (QuietFrom 0 passes → ∀ r0 : Startup × List Event,
      startupWait { s := { s with timeout := 7 * ONESEC }, pitch := 0, state := 0 } passes
        = some r0 → r0.1.state ≠ 3) ∧
    (QuietFrom 0 passes → 7 * ONESEC ≤ passTicks passes →
      ∃ r0 : Startup × List Event,
        startupWait { s := { s with timeout := 7 * ONESEC }, pitch := 0, state := 0 } passes
          = some r0) ∧
    (∀ A B : List Pass, passes = A ++ B → ¬ ArmingStream (fbWords A) →
      (∀ q : Pass, q ∈ B → q.pb = []) → QuietFrom 0 passes) ∧
    (¬ HasPreamble (fbWords passes) → QuietFrom 0 passes) := by
  have hunarmed : ∀ A : List Pass, ¬ ArmingStream (fbWords A) →
      (fbWords A).foldl matchPreamble 0 ≠ 2 := by
    intro A hna h2
    exact hna ((matcher_armed_iff _ (fbWords A) (Nat.le_refl _)).mp h2)
  refine ⟨?_, ?_, ?_, ?_, ?_⟩
  · intro r0 hr hn
    have hj := startupWait_preserves (fun h => h.state = 3 ∨ h.pitch = 0) passes
      (fun q _ h hi => (startupPass_frame h q).2.2 hi) _ r0 (Or.inr rfl) hr
    have hp : r0.1.pitch = 0 := by
      rcases hj with hj | hj
      · exact absurd hj hn
      · exact hj
    obtain ⟨s1, s2⟩ := startupWait_silent _ _ _ hr
    obtain ⟨c1, c2⟩ := announce_split TWELVECPI
      "Unable to determine printwheel. Defaulting to 12P.\n".toList r0.2 s1 s2
    refine ⟨hp, ?_, c2, c1⟩
    unfold startup
    rw [hr]
    simp only [hp, (selectPitch_known r0.1.s).2.2.2]
    rfl
  · intro hq r0 hr
    exact (startupWait_quiet_no_capture passes _ r0 hq (show (0 : Nat) ≠ 3 by decide) hr).1
  · intro hq ht
    exact startupWait_quiet_returns passes _ hq ht
  · intro A B hAB hna hB
    rw [hAB]
    exact quietFrom_append A 0 B (quietFrom_of_unarmed A 0 (hunarmed A hna))
      (quietFrom_of_no_replies B _ hB)
  · intro hnp
    exact quietFrom_of_unarmed passes 0
      (hunarmed passes (fun ha => hnp (armingStream_hasPreamble _ ha)))

/-- C14 witness: seven seconds pass with no word on either channel. -/
theorem C14_no_capture_defaults_witness :
    startup (powerOn 255 255 255 255) [⟨[], [], 140⟩] =
      some ({ powerOn 255 255 255 255 with tabStop := 6, seconds := 7 },
        Event.ww_set_printwheel TWELVECPI ::
          "Unable to determine printwheel. Defaulting to 12P.\n".toList.map
            (fun ch => Event.putchar2 ch.toNat)) :=
  ((C14_no_capture_defaults (powerOn 255 255 255 255) [⟨[], [], 140⟩]).1
    (⟨{ powerOn 255 255 255 255 with seconds := 7 }, 0, 0⟩, [])
    (by set_option maxRecDepth 100000 in decide) (by decide)).2.1

end Wheelwriter
